import Mathlib

/-!
# HTTP client state machine of `src/core/httpcli/httpcli.c`

A shallow embedding of the asynchronous HTTP client.  The request record
`internal_request` is a Lean structure; each C callback is a Lean function on
a `Machine`, which pairs the record with

* the registrations currently held by collaborators (`pending`),
* the ordered list of calls made to collaborators (`trace`),
* whether `gpr_free(req)` has run (`freed`) and whether the process has
  stopped on a fault (`crashed`).

Collaborators whose code is not part of the sources (response parser, request
formatter, security context creation, the constant `gpr_inf_future`) are
parameters, bundled in `Collab`.
-/

namespace Httpcli

/-- A `gpr_slice`, as its bytes. -/
abbrev gpr_slice := List Nat

/-- A NUL-terminated C string, as its bytes. -/
abbrev c_string := List Nat

/-- The type `gpr_timespec`. -/
structure gpr_timespec where
  tv_sec : Int
  tv_nsec : Int
deriving DecidableEq, Repr

/-- Status delivered to endpoint read and write callbacks. -/
inductive grpc_endpoint_cb_status where
  | GRPC_ENDPOINT_CB_OK
  | GRPC_ENDPOINT_CB_EOF
  | GRPC_ENDPOINT_CB_SHUTDOWN
  | GRPC_ENDPOINT_CB_ERROR
  | GRPC_ENDPOINT_CB_TIMED_OUT
deriving DecidableEq, Repr

/-- Result of `grpc_endpoint_write`. -/
inductive grpc_endpoint_write_status where
  | GRPC_ENDPOINT_WRITE_DONE
  | GRPC_ENDPOINT_WRITE_PENDING
  | GRPC_ENDPOINT_WRITE_ERROR
deriving DecidableEq, Repr

/-- Status of the security collaborators; the client only distinguishes
`GRPC_SECURITY_OK` from every other value. -/
inductive grpc_security_status where
  | GRPC_SECURITY_OK
  | failed (code : Nat)
deriving DecidableEq, Repr

/-- An endpoint object.  The client writes to an endpoint at most once, so the
value `grpc_endpoint_write` returns for that write is carried by the object. -/
structure grpc_endpoint where
  id : Nat
  write_result : grpc_endpoint_write_status
deriving DecidableEq, Repr

/-- One entry of `grpc_resolved_addresses`. -/
structure grpc_resolved_address where
  addr : Nat
  len : Nat
deriving DecidableEq, Repr

/-- The caller's `grpc_httpcli_request`. -/
structure grpc_httpcli_request where
  host : c_string
  path : c_string
  hdrs : List (c_string × c_string)
  use_ssl : Bool
deriving DecidableEq, Repr

/-- Service name given to the resolver. -/
inductive Service where
  | http
  | https
deriving DecidableEq, Repr

/-- Collaborators of the client that are outside the sources, for a parser
state type `σ`. -/
structure Collab (σ : Type) where
  /-- State left by `grpc_httpcli_parser_init`. -/
  parser_init : σ
  /-- Function `grpc_httpcli_parser_parse`: new parser state and whether the
  result was non-zero. -/
  parser_parse : σ → gpr_slice → σ × Bool
  /-- Function `grpc_httpcli_parser_eof`, as "result is non-zero". -/
  parser_eof : σ → Bool
  format_get_request : grpc_httpcli_request → gpr_slice
  format_post_request : grpc_httpcli_request → List Nat → Nat → gpr_slice
  ssl_channel_security_context_create : Option c_string → grpc_security_status
  gpr_inf_future : gpr_timespec

/-- The record `internal_request`. -/
structure internal_request (σ : Type) where
  request_text : gpr_slice
  parser : σ
  addresses : Option (List grpc_resolved_address)
  next_address : Nat
  ep : Option grpc_endpoint
  em : Nat
  host : Option c_string
  deadline : gpr_timespec
  have_read_byte : Bool
  use_ssl : Bool
  on_response : Nat
  user_data : Nat

/-- The callbacks of the client a collaborator can hold a registration for. -/
inductive Callback where
  | on_resolved
  | on_connected
  | on_secure_transport_setup_done
  | done_write
  | on_read
deriving DecidableEq, Repr

/-- Calls the client makes, in the order it makes them, and faults. -/
inductive Effect (σ : Type) where
  /-- Call `req->on_response(req->user_data, response)`; `none` is `NULL`,
  `some p` is `&req->parser.r` with the parser in state `p`. -/
  | on_response (cb : Nat) (user_data : Nat) (response : Option σ)
  | parser_destroy
  | resolved_addresses_destroy (addresses : List grpc_resolved_address)
  | endpoint_destroy (ep : grpc_endpoint)
  | slice_ref (s : gpr_slice)
  | slice_unref (s : gpr_slice)
  | free_host (host : Option c_string)
  | free_req
  | resolve_address (host : c_string) (service : Service)
  | tcp_client_connect (index : Nat) (addr : grpc_resolved_address) (em : Nat)
      (deadline : gpr_timespec)
  | setup_secure_transport (tcp : grpc_endpoint)
  | security_context_unref
  | endpoint_write (ep : grpc_endpoint) (s : gpr_slice) (deadline : gpr_timespec)
  | endpoint_notify_on_read (ep : grpc_endpoint) (deadline : gpr_timespec)
  | parser_parse (s : gpr_slice)
  /-- The `done:` loop of `on_read` releasing the delivered slices. -/
  | read_slices_unref (nslices : Nat)
  /-- An access to the request record after `gpr_free(req)`. -/
  | use_after_free
  /-- A dereference of a null pointer. -/
  | null_deref
  /-- A read of `addrs[index]` with `index` outside the array. -/
  | out_of_bounds (index : Nat)
  /-- A failed `GPR_ASSERT`. -/
  | abort
deriving DecidableEq

/-- One request in flight together with its surroundings. -/
structure Machine (σ : Type) where
  req : internal_request σ
  freed : Bool
  crashed : Bool
  pending : List Callback
  trace : List (Effect σ)

variable {σ : Type}

/-- Record one call; nothing runs any more once the process has crashed. -/
def emit (m : Machine σ) (e : Effect σ) : Machine σ :=
  if m.crashed then m else { m with trace := m.trace ++ [e] }

/-- A collaborator takes a registration for callback `cb`. -/
def register (m : Machine σ) (cb : Callback) : Machine σ :=
  if m.crashed then m else { m with pending := m.pending ++ [cb] }

/-- The process stops on fault `e`: no callback is delivered afterwards. -/
def crash (m : Machine σ) (e : Effect σ) : Machine σ :=
  if m.crashed then m else { m with trace := m.trace ++ [e], crashed := true, pending := [] }

/-- An access through the pointer `req`; it is recorded when the record has
already been freed. -/
def deref (m : Machine σ) : Machine σ :=
  if m.freed then emit m Effect.use_after_free else m

/-- An assignment to fields of `*req`. -/
def store (m : Machine σ) (f : internal_request σ → internal_request σ) : Machine σ :=
  let m1 := deref m
  if m1.crashed then m1 else { m1 with req := f m1.req }

/-- Function `finish` (httpcli.c, lines 68-81). -/
def finish (m : Machine σ) (success : Bool) : Machine σ :=
  let m := deref m
  let m := emit m (Effect.on_response m.req.on_response m.req.user_data
    (if success then some m.req.parser else none))
  let m := emit m Effect.parser_destroy
  let m := match m.req.addresses with
    | some a => emit m (Effect.resolved_addresses_destroy a)
    | none => m
  let m := match m.req.ep with
    | some ep => emit m (Effect.endpoint_destroy ep)
    | none => m
  let m := emit m (Effect.slice_unref m.req.request_text)
  let m := emit m (Effect.free_host m.req.host)
  let m := emit m Effect.free_req
  if m.crashed then m else { m with freed := true }

/-- Function `next_address` (httpcli.c, lines 195-206). -/
def next_address (m : Machine σ) : Machine σ :=
  let m := deref m
  match m.req.addresses with
  | none => crash m Effect.null_deref
  | some addrs =>
    if m.req.next_address = addrs.length then
      finish m false
    else
      let i := m.req.next_address
      let m := store m (fun r => { r with next_address := r.next_address + 1 })
      match addrs[i]? with
      | none => crash m (Effect.out_of_bounds i)
      | some addr =>
        register (emit m (Effect.tcp_client_connect i addr m.req.em m.req.deadline))
          Callback.on_connected

/-- The call `grpc_endpoint_notify_on_read(req->ep, on_read, req, gpr_inf_future)`. -/
def notify_on_read (C : Collab σ) (m : Machine σ) : Machine σ :=
  let m := deref m
  match m.req.ep with
  | none => crash m Effect.null_deref
  | some ep =>
    register (emit m (Effect.endpoint_notify_on_read ep C.gpr_inf_future)) Callback.on_read

/-- The first loop of `on_read` (httpcli.c, lines 90-98); the flag returned is
false when the loop left through `goto done`. -/
def on_read_slices (C : Collab σ) (m : Machine σ) : List gpr_slice → Machine σ × Bool
  | [] => (m, true)
  | s :: rest =>
    if s.length ≠ 0 then
      let m1 := store m (fun r => { r with have_read_byte := true })
      let m2 := emit m1 (Effect.parser_parse s)
      let res := C.parser_parse m2.req.parser s
      let m3 := store m2 (fun r => { r with parser := res.1 })
      if res.2 then on_read_slices C m3 rest else (finish m3 false, false)
    else on_read_slices C m rest

/-- Function `on_read` (httpcli.c, lines 83-120). -/
def on_read (C : Collab σ) (m : Machine σ) (slices : List gpr_slice)
    (status : grpc_endpoint_cb_status) : Machine σ :=
  let r := on_read_slices C m slices
  let m1 := r.1
  let m2 :=
    if r.2 then
      match status with
      | grpc_endpoint_cb_status.GRPC_ENDPOINT_CB_OK => notify_on_read C m1
      | _ =>
        let m1 := deref m1
        if !m1.req.have_read_byte then next_address m1
        else finish m1 (C.parser_eof m1.req.parser)
    else m1
  emit m2 (Effect.read_slices_unref slices.length)

/-- Function `on_written` (httpcli.c, lines 122-125). -/
def on_written (C : Collab σ) (m : Machine σ) : Machine σ :=
  notify_on_read C m

/-- Function `done_write` (httpcli.c, lines 127-141). -/
def done_write (C : Collab σ) (m : Machine σ) (status : grpc_endpoint_cb_status) :
    Machine σ :=
  match status with
  | grpc_endpoint_cb_status.GRPC_ENDPOINT_CB_OK => on_written C m
  | _ => next_address m

/-- Function `start_write` (httpcli.c, lines 143-157). -/
def start_write (C : Collab σ) (m : Machine σ) : Machine σ :=
  let m := deref m
  let m := emit m (Effect.slice_ref m.req.request_text)
  match m.req.ep with
  | none => crash m Effect.null_deref
  | some ep =>
    let m := emit m (Effect.endpoint_write ep m.req.request_text C.gpr_inf_future)
    match ep.write_result with
    | grpc_endpoint_write_status.GRPC_ENDPOINT_WRITE_DONE => on_written C m
    | grpc_endpoint_write_status.GRPC_ENDPOINT_WRITE_PENDING =>
      register m Callback.done_write
    | grpc_endpoint_write_status.GRPC_ENDPOINT_WRITE_ERROR => finish m false

/-- Function `on_secure_transport_setup_done` (httpcli.c, lines 159-171). -/
def on_secure_transport_setup_done (C : Collab σ) (m : Machine σ)
    (status : grpc_security_status) (secure_endpoint : Option grpc_endpoint) : Machine σ :=
  if status ≠ grpc_security_status.GRPC_SECURITY_OK then
    finish m false
  else
    let m := store m (fun r => { r with ep := secure_endpoint })
    start_write C m

/-- Function `on_connected` (httpcli.c, lines 173-193). -/
def on_connected (C : Collab σ) (m : Machine σ) (tcp : Option grpc_endpoint) : Machine σ :=
  match tcp with
  | none => next_address m
  | some t =>
    let m := store m (fun r => { r with ep := some t })
    if m.req.use_ssl then
      if C.ssl_channel_security_context_create m.req.host
          = grpc_security_status.GRPC_SECURITY_OK then
        let m := register (emit m (Effect.setup_secure_transport t))
          Callback.on_secure_transport_setup_done
        emit m Effect.security_context_unref
      else crash m Effect.abort
    else start_write C m

/-- Function `on_resolved` (httpcli.c, lines 208-217).  The branch for a null
address set calls `finish` and, as in the source, falls through to the
statements after the `if`. -/
def on_resolved (m : Machine σ) (addresses : Option (List grpc_resolved_address)) :
    Machine σ :=
  let m := if addresses.isNone then finish m false else m
  let m := store m (fun r => { r with addresses := addresses })
  let m := store m (fun r => { r with next_address := 0 })
  next_address m

/-- The record after `memset(req, 0, sizeof(*req))` and the assignments shared
by `grpc_httpcli_get` and `grpc_httpcli_post`. -/
def new_request (C : Collab σ) (request_text : gpr_slice) (request : grpc_httpcli_request)
    (deadline : gpr_timespec) (em on_response user_data : Nat) : internal_request σ :=
  { request_text := request_text
    parser := C.parser_init
    addresses := none
    next_address := 0
    ep := none
    em := em
    host := if request.use_ssl then some request.host else none
    deadline := deadline
    have_read_byte := false
    use_ssl := request.use_ssl
    on_response := on_response
    user_data := user_data }

/-- Function `grpc_httpcli_get` (httpcli.c, lines 219-237). -/
def grpc_httpcli_get (C : Collab σ) (request : grpc_httpcli_request)
    (deadline : gpr_timespec) (em on_response user_data : Nat) : Machine σ :=
  { req := new_request C (C.format_get_request request) request deadline em on_response
      user_data
    freed := false
    crashed := false
    pending := [Callback.on_resolved]
    trace := [Effect.resolve_address request.host
      (if request.use_ssl then Service.https else Service.http)] }

/-- Function `grpc_httpcli_post` (httpcli.c, lines 239-259). -/
def grpc_httpcli_post (C : Collab σ) (request : grpc_httpcli_request)
    (body_bytes : List Nat) (body_size : Nat)
    (deadline : gpr_timespec) (em on_response user_data : Nat) : Machine σ :=
  { req := new_request C (C.format_post_request request body_bytes body_size) request
      deadline em on_response user_data
    freed := false
    crashed := false
    pending := [Callback.on_resolved]
    trace := [Effect.resolve_address request.host
      (if request.use_ssl then Service.https else Service.http)] }

/-- An outcome a collaborator delivers to one of the callbacks. -/
inductive Event where
  | resolved (addresses : Option (List grpc_resolved_address))
  | connected (tcp : Option grpc_endpoint)
  | secure_transport_setup_done (status : grpc_security_status)
      (secure_endpoint : Option grpc_endpoint)
  | write_done (status : grpc_endpoint_cb_status)
  | read (slices : List gpr_slice) (status : grpc_endpoint_cb_status)
deriving DecidableEq

/-- The callback an outcome is delivered to. -/
def Event.callback : Event → Callback
  | Event.resolved _ => Callback.on_resolved
  | Event.connected _ => Callback.on_connected
  | Event.secure_transport_setup_done _ _ => Callback.on_secure_transport_setup_done
  | Event.write_done _ => Callback.done_write
  | Event.read _ _ => Callback.on_read

/-- Run the callback an outcome is delivered to. -/
def dispatch (C : Collab σ) (m : Machine σ) : Event → Machine σ
  | Event.resolved a => on_resolved m a
  | Event.connected tcp => on_connected C m tcp
  | Event.secure_transport_setup_done st ep => on_secure_transport_setup_done C m st ep
  | Event.write_done st => done_write C m st
  | Event.read slices st => on_read C m slices st

/-- Delivery of one outcome.  A collaborator calls a callback once per
registration it holds, so an outcome without a registration cannot be
delivered (`none`). -/
def step (C : Collab σ) (m : Machine σ) (ev : Event) : Option (Machine σ) :=
  if ev.callback ∈ m.pending then
    some (dispatch C { m with pending := m.pending.erase ev.callback } ev)
  else none

/-- Delivery of a sequence of outcomes, in order. -/
def run (C : Collab σ) (m : Machine σ) : List Event → Option (Machine σ)
  | [] => some m
  | ev :: evs => (step C m ev).bind (fun m1 => run C m1 evs)

/-- What the parser has been given and answered over one delivery. -/
structure Fed (σ : Type) where
  parser : σ
  ok : Bool
  given : List gpr_slice

/-- Feed the buffers of one delivery to the parser the way the first loop of
`on_read` does: zero-length buffers are skipped, and the first failure stops
the loop. -/
def feed (C : Collab σ) (p : σ) : List gpr_slice → Fed σ
  | [] => { parser := p, ok := true, given := [] }
  | s :: rest =>
    if s.length ≠ 0 then
      let res := C.parser_parse p s
      if res.2 then
        let r := feed C res.1 rest
        { r with given := s :: r.given }
      else { parser := res.1, ok := false, given := [s] }
    else feed C p rest

/-- Indices of the addresses given to `grpc_tcp_client_connect`, in call order. -/
def connect_indices : List (Effect σ) → List Nat
  | [] => []
  | Effect.tcp_client_connect i _ _ _ :: t => i :: connect_indices t
  | _ :: t => connect_indices t

/-- State of the record while a registration for callback `cb` is held. -/
def Phase (r : internal_request σ) : Callback → Prop
  | Callback.on_resolved =>
    r.addresses = none ∧ r.next_address = 0 ∧ r.ep = none ∧ r.have_read_byte = false
  | Callback.on_connected => r.addresses.isSome ∧ r.have_read_byte = false
  | Callback.on_secure_transport_setup_done =>
    r.addresses.isSome ∧ r.ep.isSome ∧ r.have_read_byte = false ∧ r.use_ssl = true
  | Callback.done_write => r.addresses.isSome ∧ r.ep.isSome ∧ r.have_read_byte = false
  | Callback.on_read => r.addresses.isSome ∧ r.ep.isSome

/-- Agreement of one recorded call with the record it was made for. -/
def Effect.sound (C : Collab σ) (r : internal_request σ) : Effect σ → Prop
  | Effect.tcp_client_connect i a em dl =>
    (∃ addrs, r.addresses = some addrs ∧ addrs[i]? = some a) ∧ em = r.em
      ∧ dl = r.deadline
  | Effect.endpoint_write _ s dl => s = r.request_text ∧ dl = C.gpr_inf_future
  | Effect.endpoint_notify_on_read _ dl => dl = C.gpr_inf_future
  | Effect.out_of_bounds _ => False
  | _ => True

/-- The request starts from `m0`: the state left by `grpc_httpcli_get` or by
`grpc_httpcli_post`. -/
def Initial (C : Collab σ) (m0 : Machine σ) : Prop :=
  (∃ request deadline em cb ud, m0 = grpc_httpcli_get C request deadline em cb ud) ∨
  (∃ request body size deadline em cb ud,
    m0 = grpc_httpcli_post C request body size deadline em cb ud)

/-- Invariant of the states a request started in `m0` goes through. -/
structure Inv (C : Collab σ) (m0 m : Machine σ) : Prop where
  pending : m.pending = [] ∨
    ∃ cb, m.pending = [cb] ∧ m.crashed = false ∧ m.freed = false ∧ Phase m.req cb
  cursor : ∀ addrs, m.req.addresses = some addrs → m.req.next_address ≤ addrs.length
  cursor_unresolved : m.req.addresses = none → m.req.next_address = 0
  indices : connect_indices m.trace = List.range m.req.next_address
  sound : ∀ e ∈ m.trace, Effect.sound C m.req e
  deadline : m.req.deadline = m0.req.deadline
  em : m.req.em = m0.req.em
  request_text : m.req.request_text = m0.req.request_text
  on_response : m.req.on_response = m0.req.on_response
  user_data : m.req.user_data = m0.req.user_data
  use_ssl : m.req.use_ssl = m0.req.use_ssl
  host : m.req.host = m0.req.host

/-- Effects that are neither a connect nor constrained by `Effect.sound`. -/
def Effect.neutral : Effect σ → Prop
  | Effect.tcp_client_connect _ _ _ _ => False
  | Effect.endpoint_write _ _ _ => False
  | Effect.endpoint_notify_on_read _ _ => False
  | Effect.out_of_bounds _ => False
  | _ => True


/-- Whether an outcome hands a non-empty buffer to the request. -/
def Event.delivers_byte : Event → Bool
  | Event.read slices _ => slices.any (fun s => s.length ≠ 0)
  | _ => false

/-- Whether the outcomes `evs` have handed a non-empty buffer to the request. -/
def ever_delivered (evs : List Event) : Bool :=
  evs.any Event.delivers_byte

/-- The two records agree on the read flag and on the address set. -/
def same_core (r r1 : internal_request σ) : Prop :=
  r1.have_read_byte = r.have_read_byte ∧ r1.addresses = r.addresses

/-- Responses handed to the user callback, in call order (`none` is `NULL`). -/
def responses : List (Effect σ) → List (Option σ)
  | [] => []
  | Effect.on_response _ _ r :: t => r :: responses t
  | _ :: t => responses t

/-- The calls of the terminal path for record `r`, in order: the user callback,
then the releases. -/
def finish_calls (r : internal_request σ) (success : Bool) : List (Effect σ) :=
  [Effect.on_response r.on_response r.user_data (if success then some r.parser else none),
    Effect.parser_destroy]
  ++ (match r.addresses with
      | some a => [Effect.resolved_addresses_destroy a]
      | none => [])
  ++ (match r.ep with
      | some ep => [Effect.endpoint_destroy ep]
      | none => [])
  ++ [Effect.slice_unref r.request_text, Effect.free_host r.host, Effect.free_req]

/-- The deadline of a connect, a write or a read registration is `d`. -/
def Effect.deadline_is (d : gpr_timespec) : Effect σ → Prop
  | Effect.tcp_client_connect _ _ _ dl => dl = d
  | Effect.endpoint_write _ _ dl => dl = d
  | Effect.endpoint_notify_on_read _ dl => dl = d
  | _ => True

/-- The deadlines the client passes: `d` to a connect, `gpr_inf_future` to a
write and to a read registration. -/
def Effect.deadline_as_coded (C : Collab σ) (d : gpr_timespec) : Effect σ → Prop
  | Effect.tcp_client_connect _ _ _ dl => dl = d
  | Effect.endpoint_write _ _ dl => dl = C.gpr_inf_future
  | Effect.endpoint_notify_on_read _ dl => dl = C.gpr_inf_future
  | _ => True

/-- Outcomes for a request whose resolver returns `addrs` and whose first `k`
connects report no endpoint. -/
def failed_connects (addrs : List grpc_resolved_address) (k : Nat) : List Event :=
  Event.resolved (some addrs) :: List.replicate k (Event.connected none)

/-- The endpoint written to after a connect that returned `tcp`: the secure
endpoint `sep` for a secure request, `tcp` itself otherwise. -/
def active_endpoint (use_ssl : Bool) (tcp sep : grpc_endpoint) : grpc_endpoint :=
  if use_ssl then sep else tcp

/-- Outcomes for a connect that returns `tcp` and is then served: the secure
setup succeeds with `sep` (secure request only), the write completes (its
callback is delivered only when the write was pending), the deliveries `reads`
come with status OK and the delivery `last` with status `st`. -/
def served (use_ssl : Bool) (tcp sep : grpc_endpoint) (reads : List (List gpr_slice))
    (last : List gpr_slice) (st : grpc_endpoint_cb_status) : List Event :=
  [Event.connected (some tcp)]
  ++ (if use_ssl then
        [Event.secure_transport_setup_done grpc_security_status.GRPC_SECURITY_OK (some sep)]
      else [])
  ++ (if (active_endpoint use_ssl tcp sep).write_result
          = grpc_endpoint_write_status.GRPC_ENDPOINT_WRITE_PENDING then
        [Event.write_done grpc_endpoint_cb_status.GRPC_ENDPOINT_CB_OK]
      else [])
  ++ reads.map (fun sl => Event.read sl grpc_endpoint_cb_status.GRPC_ENDPOINT_CB_OK)
  ++ [Event.read last st]

/-! ## A concrete instance, used to evaluate the definitions -/

/-- A small parser: it accumulates the bytes it is given, rejects a buffer
that contains the byte `0`, and takes a response of two bytes or more as
complete. -/
def sample_collab : Collab (List Nat) :=
  { parser_init := []
    parser_parse := fun p s => (p ++ s, !(s.contains 0))
    parser_eof := fun p => decide (2 ≤ p.length)
    format_get_request := fun r => 71 :: r.path
    format_post_request := fun r body size => 80 :: r.path ++ body.take size
    ssl_channel_security_context_create := fun _ => grpc_security_status.GRPC_SECURITY_OK
    gpr_inf_future := { tv_sec := 9223372036854775807, tv_nsec := 0 } }

def sample_request : grpc_httpcli_request :=
  { host := [104], path := [47], hdrs := [], use_ssl := false }

def sample_secure_request : grpc_httpcli_request :=
  { host := [104], path := [47], hdrs := [], use_ssl := true }

def sample_deadline : gpr_timespec := { tv_sec := 5, tv_nsec := 0 }

def sample_addr0 : grpc_resolved_address := { addr := 10, len := 16 }

def sample_addr1 : grpc_resolved_address := { addr := 11, len := 16 }

/-- A request started by `grpc_httpcli_get` with deadline `sample_deadline`. -/
def sample_start : Machine (List Nat) :=
  grpc_httpcli_get sample_collab sample_request sample_deadline 0 7 8

/-- A secure request started by `grpc_httpcli_get`. -/
def sample_secure_start : Machine (List Nat) :=
  grpc_httpcli_get sample_collab sample_secure_request sample_deadline 0 7 8

def sample_ep_done : grpc_endpoint :=
  { id := 1, write_result := grpc_endpoint_write_status.GRPC_ENDPOINT_WRITE_DONE }

def sample_ep_pending : grpc_endpoint :=
  { id := 2, write_result := grpc_endpoint_write_status.GRPC_ENDPOINT_WRITE_PENDING }

def sample_ep_error : grpc_endpoint :=
  { id := 3, write_result := grpc_endpoint_write_status.GRPC_ENDPOINT_WRITE_ERROR }

/-- A live request that owns `sample_ep_done`, has tried the first of two
addresses and has no registration outstanding. -/
def sample_machine : Machine (List Nat) :=
  { req :=
      { request_text := [71, 47]
        parser := [72]
        addresses := some [sample_addr0, sample_addr1]
        next_address := 1
        ep := some sample_ep_done
        em := 0
        host := none
        deadline := sample_deadline
        have_read_byte := false
        use_ssl := false
        on_response := 7
        user_data := 8 }
    freed := false
    crashed := false
    pending := []
    trace := [] }

/-- The state of `sample_start` once resolved to two addresses and connected
with `sample_ep_done`: the request text is written and a read is registered. -/
def sample_reading : Machine (List Nat) :=
  (run sample_collab sample_start
    [Event.resolved (some [sample_addr0, sample_addr1]),
      Event.connected (some sample_ep_done)]).getD sample_start

/-- The state of `sample_secure_start` once resolved to two addresses and
connected: the secure setup is outstanding. -/
def sample_securing : Machine (List Nat) :=
  (run sample_collab sample_secure_start
    [Event.resolved (some [sample_addr0, sample_addr1]),
      Event.connected (some sample_ep_done)]).getD sample_secure_start

/-- The state of `sample_reading` after a first delivery of one byte with
status OK: the flag `have_read_byte` is set and a read is registered. -/
def sample_responding : Machine (List Nat) :=
  (run sample_collab sample_start
    [Event.resolved (some [sample_addr0, sample_addr1]),
      Event.connected (some sample_ep_done),
      Event.read [[72]] grpc_endpoint_cb_status.GRPC_ENDPOINT_CB_OK]).getD sample_start

/-- The state of `sample_responding` after an error with no further byte. -/
def sample_responded : Machine (List Nat) :=
  (run sample_collab sample_responding
    [Event.read [] grpc_endpoint_cb_status.GRPC_ENDPOINT_CB_ERROR]).getD sample_responding

end Httpcli

/-!
# Time support of `src/core/support/time_posix.c`

`gpr_now` is a function of the value the system call stores; `gpr_sleep_until`
is a function of the successive results of `gpr_now` and of `nanosleep`, and
returns the arguments it passed to `nanosleep`.  The helpers `gpr_time_cmp`
and `gpr_time_sub` are outside the sources and are parameters.
-/

namespace TimePosix

open Httpcli (gpr_timespec)

/-- The type `struct timeval`. -/
structure timeval where
  tv_sec : Int
  tv_usec : Int
deriving DecidableEq, Repr

/-- Function `gpr_now`, build with POSIX timers (time_posix.c, lines 46-50),
on the value `clock_gettime(CLOCK_REALTIME, &now)` stores. -/
def gpr_now_posix_timers (realtime : gpr_timespec) : gpr_timespec :=
  realtime

/-- Function `gpr_now`, build without POSIX timers (time_posix.c, lines
54-61), on the value `gettimeofday(&now_tv, NULL)` stores.  The division is
the C one, which truncates toward zero. -/
def gpr_now (now_tv : timeval) : gpr_timespec :=
  { tv_sec := now_tv.tv_sec
    tv_nsec := Int.tdiv now_tv.tv_usec 1000 }

/-- Helpers of `grpc/support/time.h` used by `gpr_sleep_until`. -/
structure TimeOps where
  gpr_time_cmp : gpr_timespec → gpr_timespec → Int
  gpr_time_sub : gpr_timespec → gpr_timespec → gpr_timespec

/-- Function `gpr_sleep_until` (time_posix.c, lines 64-81).  The first list
holds the successive results of `gpr_now()`, the second the successive results
of `nanosleep`.  The result is the list of intervals passed to `nanosleep`, in
call order, once the function returns; it is `none` when the observations run
out with the loop still going. -/
def gpr_sleep_until (T : TimeOps) (until_ : gpr_timespec) :
    List gpr_timespec → List Int → Option (List gpr_timespec)
  | [], _ => none
  | now :: clocks, results =>
    if T.gpr_time_cmp until_ now ≤ 0 then some []
    else
      let delta := T.gpr_time_sub until_ now
      match results with
      | [] => none
      | r :: results =>
        if r = 0 then some [delta]
        else (gpr_sleep_until T until_ clocks results).map (fun calls => delta :: calls)

/-- A comparison and a difference of normalised timespecs, used to evaluate
`gpr_sleep_until`. -/
def sample_time_ops : TimeOps :=
  { gpr_time_cmp := fun a b =>
      if a.tv_sec < b.tv_sec then -1
      else if b.tv_sec < a.tv_sec then 1
      else if a.tv_nsec < b.tv_nsec then -1
      else if b.tv_nsec < a.tv_nsec then 1
      else 0
    gpr_time_sub := fun a b =>
      if a.tv_nsec < b.tv_nsec then
        { tv_sec := a.tv_sec - b.tv_sec - 1, tv_nsec := a.tv_nsec - b.tv_nsec + 1000000000 }
      else { tv_sec := a.tv_sec - b.tv_sec, tv_nsec := a.tv_nsec - b.tv_nsec } }

end TimePosix

namespace Httpcli

variable {σ : Type}
/-! ## Shape of the callbacks on a live request, and the run invariant -/

theorem emit_live (m : Machine σ) (e : Effect σ) (hc : m.crashed = false) :
    emit m e = { m with trace := m.trace ++ [e] } := by
  simp [emit, hc]

theorem finish_live (m : Machine σ) (success : Bool) (hc : m.crashed = false)
    (hf : m.freed = false) :
    finish m success =
      { m with
        freed := true
        trace := m.trace ++
          ([Effect.on_response m.req.on_response m.req.user_data
              (if success then some m.req.parser else none),
            Effect.parser_destroy]
            ++ (match m.req.addresses with
                | some a => [Effect.resolved_addresses_destroy a]
                | none => [])
            ++ (match m.req.ep with
                | some ep => [Effect.endpoint_destroy ep]
                | none => [])
            ++ [Effect.slice_unref m.req.request_text, Effect.free_host m.req.host,
                Effect.free_req]) } := by
  obtain ⟨req, freed, crashed, pending, trace⟩ := m
  simp only at hc hf
  subst hc hf
  cases ha : req.addresses <;> cases he : req.ep <;>
    simp [finish, emit, deref, ha, he]


theorem on_read_slices_live (C : Collab σ) (slices : List gpr_slice) :
    ∀ (m : Machine σ), m.crashed = false → m.freed = false →
    on_read_slices C m slices =
      (let f := feed C m.req.parser slices
       let m1 : Machine σ :=
        { m with
          req := { m.req with
            parser := f.parser
            have_read_byte := m.req.have_read_byte || !f.given.isEmpty }
          trace := m.trace ++ f.given.map Effect.parser_parse }
       if f.ok then (m1, true) else (finish m1 false, false)) := by
  induction slices with
  | nil =>
    intro m hc hf
    simp [on_read_slices, feed]
  | cons s rest ih =>
    intro m hc hf
    obtain ⟨req, freed, crashed, pending, trace⟩ := m
    simp only at hc hf
    subst hc hf
    by_cases hs : s.length = 0
    · have := ih ⟨req, false, false, pending, trace⟩ rfl rfl
      simp [on_read_slices, feed, hs, this]
    · cases hp : (C.parser_parse req.parser s).2
      · simp [on_read_slices, feed, hs, hp, store, deref, emit]
      · have := ih ⟨{ req with have_read_byte := true, parser := (C.parser_parse req.parser s).1 }, false, false, pending, trace ++ [Effect.parser_parse s]⟩ rfl rfl
        simp [on_read_slices, feed, hs, hp, store, deref, emit, this]

theorem connect_indices_append (t u : List (Effect σ)) :
    connect_indices (t ++ u) = connect_indices t ++ connect_indices u := by
  induction t with
  | nil => rfl
  | cons e t ih => cases e <;> simp [connect_indices, ih]

theorem connect_indices_parse (l : List gpr_slice) :
    connect_indices (l.map (Effect.parser_parse : gpr_slice → Effect σ)) = [] := by
  induction l with
  | nil => rfl
  | cons s l ih => simp [connect_indices, ih]

theorem Inv_initial (C : Collab σ) (m0 : Machine σ) (h : Initial C m0) : Inv C m0 m0 := by
  rcases h with ⟨request, d, em, cb, ud, rfl⟩ | ⟨request, body, size, d, em, cb, ud, rfl⟩
  · constructor <;>
      simp [grpc_httpcli_get, new_request, Phase, connect_indices, Effect.sound]
  · constructor <;>
      simp [grpc_httpcli_post, new_request, Phase, connect_indices, Effect.sound]

theorem connect_indices_neutral (l : List (Effect σ)) (h : ∀ e ∈ l, e.neutral) :
    connect_indices l = [] := by
  induction l with
  | nil => rfl
  | cons e l ih =>
    have h1 := h e (by simp)
    have h2 := ih (fun x hx => h x (by simp [hx]))
    cases e <;> simp_all [connect_indices, Effect.neutral]

theorem sound_of_neutral (C : Collab σ) (r : internal_request σ) (e : Effect σ)
    (h : e.neutral) : Effect.sound C r e := by
  cases e <;> simp_all [Effect.sound, Effect.neutral]

/-- Appending neutral effects, and setting `freed`, keeps the invariant of a
machine without registrations. -/
theorem Inv_append_neutral (C : Collab σ) (m0 m : Machine σ) (l : List (Effect σ))
    (fr cr : Bool) (hI : Inv C m0 m) (hp : m.pending = []) (hl : ∀ e ∈ l, e.neutral) :
    Inv C m0 { m with trace := m.trace ++ l, freed := fr, crashed := cr } := by
  obtain ⟨hpend, hcur, hcur0, hidx, hsound, hd, hem, hrt, hor, hud, hssl, hh⟩ := hI
  refine ⟨Or.inl hp, hcur, hcur0, ?_, ?_, hd, hem, hrt, hor, hud, hssl, hh⟩
  · simp [connect_indices_append, connect_indices_neutral l hl, hidx]
  · intro e he
    simp only [List.mem_append] at he
    rcases he with he | he
    · exact hsound e he
    · exact sound_of_neutral C _ e (hl e he)

theorem Inv_finish (C : Collab σ) (m0 m : Machine σ) (b : Bool) (hI : Inv C m0 m)
    (hc : m.crashed = false) (hf : m.freed = false) (hp : m.pending = []) :
    Inv C m0 (finish m b) := by
  rw [finish_live m b hc hf]
  refine Inv_append_neutral C m0 m _ true m.crashed hI hp ?_
  cases ha : m.req.addresses <;> cases hep : m.req.ep <;> simp [Effect.neutral]

theorem sound_congr (C : Collab σ) (r r1 : internal_request σ) (e : Effect σ)
    (h1 : r1.addresses = r.addresses) (h2 : r1.em = r.em) (h3 : r1.deadline = r.deadline)
    (h4 : r1.request_text = r.request_text) (h : Effect.sound C r e) :
    Effect.sound C r1 e := by
  cases e <;> simp_all [Effect.sound]

theorem next_address_exhausted (m : Machine σ) (addrs : List grpc_resolved_address)
    (hf : m.freed = false) (ha : m.req.addresses = some addrs)
    (hn : m.req.next_address = addrs.length) :
    next_address m = finish m false := by
  simp [next_address, deref, hf, ha, hn]

theorem next_address_connect (m : Machine σ) (addrs : List grpc_resolved_address)
    (a : grpc_resolved_address)
    (hc : m.crashed = false) (hf : m.freed = false) (ha : m.req.addresses = some addrs)
    (hn : addrs[m.req.next_address]? = some a) :
    next_address m =
      { m with
        req := { m.req with next_address := m.req.next_address + 1 }
        pending := m.pending ++ [Callback.on_connected]
        trace := m.trace ++
          [Effect.tcp_client_connect m.req.next_address a m.req.em m.req.deadline] } := by
  have hlt : m.req.next_address < addrs.length := by
    rcases List.getElem?_eq_some.mp hn with ⟨h, _⟩
    exact h
  simp [next_address, deref, store, emit, register, hc, hf, ha, hn, Nat.ne_of_lt hlt]

theorem Inv_next_address (C : Collab σ) (m0 m : Machine σ) (hI : Inv C m0 m)
    (hc : m.crashed = false) (hf : m.freed = false) (hp : m.pending = [])
    (ha : m.req.addresses.isSome) (hb : m.req.have_read_byte = false) :
    Inv C m0 (next_address m) := by
  obtain ⟨addrs, haddr⟩ := Option.isSome_iff_exists.mp ha
  by_cases hn : m.req.next_address = addrs.length
  · rw [next_address_exhausted m addrs hf haddr hn]
    exact Inv_finish C m0 m false hI hc hf hp
  · have hle := hI.cursor addrs haddr
    have hlt : m.req.next_address < addrs.length := lt_of_le_of_ne hle hn
    have hget : addrs[m.req.next_address]? = some (addrs.get ⟨m.req.next_address, hlt⟩) :=
      List.getElem?_eq_getElem hlt
    rw [next_address_connect m addrs _ hc hf haddr hget]
    obtain ⟨hpend, hcur, hcur0, hidx, hsound, hd, hem, hrt, hor, hud, hssl, hh⟩ := hI
    refine ⟨Or.inr ⟨Callback.on_connected, ?_, hc, hf, ?_⟩, ?_, ?_, ?_, ?_, hd, hem, hrt, hor,
      hud, hssl, hh⟩
    · simp [hp]
    · simp [Phase, haddr, hb]
    · intro addrs1 h1
      simp only [haddr, Option.some.injEq] at h1
      subst h1
      exact hlt
    · intro h1
      simp [haddr] at h1
    · simp [connect_indices_append, connect_indices, hidx, List.range_succ]
    · intro e he
      simp only [List.mem_append, List.mem_singleton] at he
      rcases he with he | he
      · exact sound_congr C m.req _ e rfl rfl rfl rfl (hsound e he)
      · subst he
        simp [Effect.sound, haddr, hget]

theorem notify_on_read_live (C : Collab σ) (m : Machine σ) (ep : grpc_endpoint)
    (hc : m.crashed = false) (hf : m.freed = false) (he : m.req.ep = some ep) :
    notify_on_read C m =
      { m with
        pending := m.pending ++ [Callback.on_read]
        trace := m.trace ++ [Effect.endpoint_notify_on_read ep C.gpr_inf_future] } := by
  simp [notify_on_read, deref, emit, register, hc, hf, he]

/-- Shape of `start_write` on a live request that owns endpoint `ep`. -/
theorem start_write_live (C : Collab σ) (m : Machine σ) (ep : grpc_endpoint)
    (hc : m.crashed = false) (hf : m.freed = false) (he : m.req.ep = some ep) :
    start_write C m =
      (let m1 : Machine σ :=
        { m with trace := m.trace ++ [Effect.slice_ref m.req.request_text,
            Effect.endpoint_write ep m.req.request_text C.gpr_inf_future] }
       match ep.write_result with
       | grpc_endpoint_write_status.GRPC_ENDPOINT_WRITE_DONE =>
         { m1 with
           pending := m.pending ++ [Callback.on_read]
           trace := m1.trace ++ [Effect.endpoint_notify_on_read ep C.gpr_inf_future] }
       | grpc_endpoint_write_status.GRPC_ENDPOINT_WRITE_PENDING =>
         { m1 with pending := m.pending ++ [Callback.done_write] }
       | grpc_endpoint_write_status.GRPC_ENDPOINT_WRITE_ERROR => finish m1 false) := by
  cases hw : ep.write_result <;>
    simp [start_write, on_written, notify_on_read, deref, emit, register, hc, hf, he, hw]

/-- Appending effects that are sound for the record and are not connects. -/
theorem Inv_append (C : Collab σ) (m0 m : Machine σ) (l : List (Effect σ))
    (p : List Callback) (hI : Inv C m0 m) (hc : m.crashed = false) (hf : m.freed = false)
    (hp : p = [] ∨ ∃ cb, p = [cb] ∧ Phase m.req cb)
    (hl : ∀ e ∈ l, Effect.sound C m.req e) (hl2 : connect_indices l = []) :
    Inv C m0 { m with trace := m.trace ++ l, pending := p } := by
  obtain ⟨hpend, hcur, hcur0, hidx, hsound, hd, hem, hrt, hor, hud, hssl, hh⟩ := hI
  refine ⟨?_, hcur, hcur0, ?_, ?_, hd, hem, hrt, hor, hud, hssl, hh⟩
  · rcases hp with hp | ⟨cb, hp, hph⟩
    · exact Or.inl hp
    · exact Or.inr ⟨cb, hp, hc, hf, hph⟩
  · simp [connect_indices_append, hl2, hidx]
  · intro e he
    simp only [List.mem_append] at he
    rcases he with he | he
    · exact hsound e he
    · exact hl e he

theorem Inv_notify_on_read (C : Collab σ) (m0 m : Machine σ) (hI : Inv C m0 m)
    (hc : m.crashed = false) (hf : m.freed = false) (hp : m.pending = [])
    (ha : m.req.addresses.isSome) (he : m.req.ep.isSome) :
    Inv C m0 (notify_on_read C m) := by
  obtain ⟨ep, hep⟩ := Option.isSome_iff_exists.mp he
  rw [notify_on_read_live C m ep hc hf hep]
  refine Inv_append C m0 m _ _ hI hc hf (Or.inr ⟨Callback.on_read, by simp [hp], ?_⟩) ?_ ?_
  · simp [Phase, ha, he]
  · simp [Effect.sound]
  · simp [connect_indices]

theorem Inv_start_write (C : Collab σ) (m0 m : Machine σ) (hI : Inv C m0 m)
    (hc : m.crashed = false) (hf : m.freed = false) (hp : m.pending = [])
    (ha : m.req.addresses.isSome) (he : m.req.ep.isSome)
    (hb : m.req.have_read_byte = false) :
    Inv C m0 (start_write C m) := by
  obtain ⟨ep, hep⟩ := Option.isSome_iff_exists.mp he
  rw [start_write_live C m ep hc hf hep]
  cases hw : ep.write_result
  · simp only [List.append_assoc]
    refine Inv_append C m0 m _ _ hI hc hf (Or.inr ⟨Callback.on_read, by simp [hp], ?_⟩) ?_ ?_
    · simp [Phase, ha, he]
    · simp [Effect.sound]
    · simp [connect_indices]
  · simp only
    refine Inv_append C m0 m _ _ hI hc hf (Or.inr ⟨Callback.done_write, by simp [hp], ?_⟩) ?_ ?_
    · simp [Phase, ha, he, hb]
    · simp [Effect.sound]
    · simp [connect_indices]
  · simp only
    refine Inv_finish C m0 _ false ?_ hc hf hp
    have := Inv_append C m0 m [Effect.slice_ref m.req.request_text,
            Effect.endpoint_write ep m.req.request_text C.gpr_inf_future] [] hI hc hf
      (Or.inl rfl) (by simp [Effect.sound]) (by simp [connect_indices])
    rw [← hp] at this
    exact this

theorem store_live (m : Machine σ) (f : internal_request σ → internal_request σ)
    (hc : m.crashed = false) (hf : m.freed = false) :
    store m f = { m with req := f m.req } := by
  simp [store, deref, hc, hf]

/-- Replacing the endpoint, the parser state and the read flag of a machine
without registrations keeps the invariant. -/
theorem Inv_set (C : Collab σ) (m0 m : Machine σ) (ep : Option grpc_endpoint) (p : σ)
    (b : Bool) (hI : Inv C m0 m) (hp : m.pending = []) :
    Inv C m0 { m with req := { m.req with ep := ep, parser := p, have_read_byte := b } } := by
  obtain ⟨hpend, hcur, hcur0, hidx, hsound, hd, hem, hrt, hor, hud, hssl, hh⟩ := hI
  refine ⟨Or.inl hp, hcur, hcur0, hidx, ?_, hd, hem, hrt, hor, hud, hssl, hh⟩
  intro e he
  exact sound_congr C m.req _ e rfl rfl rfl rfl (hsound e he)

theorem Inv_on_secure_transport_setup_done (C : Collab σ) (m0 m : Machine σ)
    (st : grpc_security_status) (sep : Option grpc_endpoint) (hI : Inv C m0 m)
    (hc : m.crashed = false) (hf : m.freed = false) (hp : m.pending = [])
    (ha : m.req.addresses.isSome) (hb : m.req.have_read_byte = false) :
    Inv C m0 (on_secure_transport_setup_done C m st sep) := by
  unfold on_secure_transport_setup_done
  split
  · exact Inv_finish C m0 m false hI hc hf hp
  · rw [store_live m _ hc hf]
    have h1 := Inv_set C m0 m sep m.req.parser m.req.have_read_byte hI hp
    cases sep with
    | none =>
      have hcr : start_write C { m with req := { m.req with ep := none } } =
          { m with
            req := { m.req with ep := none }
            trace := m.trace ++ [Effect.slice_ref m.req.request_text, Effect.null_deref]
            crashed := true } := by
        simp [start_write, deref, emit, crash, hc, hf, hp]
      simp only [hcr]
      exact Inv_append_neutral C m0 _ [Effect.slice_ref m.req.request_text, Effect.null_deref]
        m.freed true h1 hp (by simp [Effect.neutral])
    | some ep =>
      exact Inv_start_write C m0 _ h1 hc hf hp ha rfl hb

theorem emit_fields (m : Machine σ) (e : Effect σ) :
    (emit m e).crashed = m.crashed ∧ (emit m e).freed = m.freed ∧
      (emit m e).pending = m.pending ∧ (emit m e).req = m.req := by
  unfold emit
  split <;> simp

theorem Inv_emit_neutral (C : Collab σ) (m0 m : Machine σ) (e : Effect σ)
    (hI : Inv C m0 m) (he : e.neutral) : Inv C m0 (emit m e) := by
  unfold emit
  split
  · exact hI
  · obtain ⟨hpend, hcur, hcur0, hidx, hsound, hd, hem, hrt, hor, hud, hssl, hh⟩ := hI
    refine ⟨hpend, hcur, hcur0, ?_, ?_, hd, hem, hrt, hor, hud, hssl, hh⟩
    · simp [connect_indices_append, connect_indices_neutral [e] (by simpa using he), hidx]
    · intro x hx
      simp only [List.mem_append, List.mem_singleton] at hx
      rcases hx with hx | hx
      · exact hsound x hx
      · subst hx
        exact sound_of_neutral C _ _ he

theorem Inv_register (C : Collab σ) (m0 m : Machine σ) (cb : Callback)
    (hI : Inv C m0 m) (hc : m.crashed = false) (hf : m.freed = false) (hp : m.pending = [])
    (hph : Phase m.req cb) : Inv C m0 (register m cb) := by
  obtain ⟨hpend, hcur, hcur0, hidx, hsound, hd, hem, hrt, hor, hud, hssl, hh⟩ := hI
  have hr : register m cb = { m with pending := m.pending ++ [cb] } := by
    simp [register, hc]
  rw [hr]
  exact ⟨Or.inr ⟨cb, by simp [hp], hc, hf, hph⟩, hcur, hcur0, hidx, hsound, hd, hem, hrt, hor,
    hud, hssl, hh⟩

theorem Inv_crash (C : Collab σ) (m0 m : Machine σ) (e : Effect σ)
    (hI : Inv C m0 m) (he : e.neutral) : Inv C m0 (crash m e) := by
  unfold crash
  split
  · exact hI
  · obtain ⟨hpend, hcur, hcur0, hidx, hsound, hd, hem, hrt, hor, hud, hssl, hh⟩ := hI
    refine ⟨Or.inl rfl, hcur, hcur0, ?_, ?_, hd, hem, hrt, hor, hud, hssl, hh⟩
    · simp [connect_indices_append, connect_indices_neutral [e] (by simpa using he), hidx]
    · intro x hx
      simp only [List.mem_append, List.mem_singleton] at hx
      rcases hx with hx | hx
      · exact hsound x hx
      · subst hx
        exact sound_of_neutral C _ _ he

theorem Inv_on_connected (C : Collab σ) (m0 m : Machine σ) (tcp : Option grpc_endpoint)
    (hI : Inv C m0 m)
    (hc : m.crashed = false) (hf : m.freed = false) (hp : m.pending = [])
    (ha : m.req.addresses.isSome) (hb : m.req.have_read_byte = false) :
    Inv C m0 (on_connected C m tcp) := by
  cases tcp with
  | none => exact Inv_next_address C m0 m hI hc hf hp ha hb
  | some t =>
    have h1 := Inv_set C m0 m (some t) m.req.parser m.req.have_read_byte hI hp
    simp only [on_connected, store_live m _ hc hf]
    split
    · rename_i hs
      split
      · apply Inv_emit_neutral _ _ _ _ _ (by simp [Effect.neutral])
        apply Inv_register
        · exact Inv_emit_neutral _ _ _ _ h1 (by simp [Effect.neutral])
        · rw [(emit_fields _ _).1]; exact hc
        · rw [(emit_fields _ _).2.1]; exact hf
        · rw [(emit_fields _ _).2.2.1]; exact hp
        · rw [(emit_fields _ _).2.2.2]
          simp [Phase, ha, hb, hs]
      · exact Inv_crash _ _ _ _ h1 (by simp [Effect.neutral])
    · exact Inv_start_write C m0 _ h1 hc hf hp ha rfl hb

theorem Inv_done_write (C : Collab σ) (m0 m : Machine σ) (st : grpc_endpoint_cb_status)
    (hI : Inv C m0 m)
    (hc : m.crashed = false) (hf : m.freed = false) (hp : m.pending = [])
    (ha : m.req.addresses.isSome) (he : m.req.ep.isSome)
    (hb : m.req.have_read_byte = false) :
    Inv C m0 (done_write C m st) := by
  cases st <;> simp only [done_write, on_written]
  · exact Inv_notify_on_read C m0 m hI hc hf hp ha he
  all_goals exact Inv_next_address C m0 m hI hc hf hp ha hb

/-- Shape of `on_read` on a live request. -/
theorem on_read_live (C : Collab σ) (m : Machine σ) (slices : List gpr_slice)
    (st : grpc_endpoint_cb_status) (hc : m.crashed = false) (hf : m.freed = false) :
    on_read C m slices st =
      (let f := feed C m.req.parser slices
       let m1 : Machine σ :=
        { m with
          req := { m.req with
            parser := f.parser
            have_read_byte := m.req.have_read_byte || !f.given.isEmpty }
          trace := m.trace ++ f.given.map Effect.parser_parse }
       emit
        (if f.ok then
          (if st = grpc_endpoint_cb_status.GRPC_ENDPOINT_CB_OK then notify_on_read C m1
           else if m1.req.have_read_byte then finish m1 (C.parser_eof m1.req.parser)
           else next_address m1)
         else finish m1 false)
        (Effect.read_slices_unref slices.length)) := by
  unfold on_read
  rw [on_read_slices_live C slices m hc hf]
  cases hok : (feed C m.req.parser slices).ok
  · simp [hok]
  · cases st <;>
      cases hb : (m.req.have_read_byte || !(feed C m.req.parser slices).given.isEmpty) <;>
      simp [hok, deref, hf, hb]

theorem sound_of_not_connect (C : Collab σ) (r r1 : internal_request σ) (e : Effect σ)
    (h : connect_indices [e] = [])
    (h4 : r1.request_text = r.request_text) (hs : Effect.sound C r e) :
    Effect.sound C r1 e := by
  cases e <;> first
    | (simp [connect_indices] at h; done)
    | (simp only [Effect.sound] at hs ⊢; try simp [h4, hs])

theorem connect_indices_nil_sound (C : Collab σ) (r r1 : internal_request σ)
    (t : List (Effect σ)) (h : connect_indices t = [])
    (h4 : r1.request_text = r.request_text) (hs : ∀ e ∈ t, Effect.sound C r e) :
    ∀ e ∈ t, Effect.sound C r1 e := by
  induction t with
  | nil => simp
  | cons x t ih =>
    have hsplit : connect_indices (x :: t) = connect_indices [x] ++ connect_indices t :=
      connect_indices_append [x] t
    rw [hsplit, List.append_eq_nil] at h
    intro e he
    rcases List.mem_cons.mp he with he | he
    · subst he
      exact sound_of_not_connect C r r1 e h.1 h4 (hs e (by simp))
    · exact ih h.2 (fun y hy => hs y (by simp [hy])) e he

theorem Inv_on_read (C : Collab σ) (m0 m : Machine σ) (slices : List gpr_slice)
    (st : grpc_endpoint_cb_status) (hI : Inv C m0 m)
    (hc : m.crashed = false) (hf : m.freed = false) (hp : m.pending = [])
    (ha : m.req.addresses.isSome) (he : m.req.ep.isSome) :
    Inv C m0 (on_read C m slices st) := by
  obtain ⟨req, freed, crashed, pending, trace⟩ := m
  simp only at hc hf hp ha he
  subst hc hf hp
  rw [on_read_live C _ slices st rfl rfl]
  have h1 := Inv_set C m0 _ req.ep (feed C req.parser slices).parser
    (req.have_read_byte || !(feed C req.parser slices).given.isEmpty) hI rfl
  have h2 := Inv_append C m0 _ ((feed C req.parser slices).given.map Effect.parser_parse) []
    h1 rfl rfl (Or.inl rfl) (by simp [Effect.sound]) (connect_indices_parse _)
  apply Inv_emit_neutral _ _ _ _ _ (by simp [Effect.neutral])
  simp only
  split
  · split
    · exact Inv_notify_on_read C m0 _ h2 rfl rfl rfl ha he
    · split
      · exact Inv_finish C m0 _ _ h2 rfl rfl rfl
      · rename_i hb
        exact Inv_next_address C m0 _ h2 rfl rfl rfl ha (by simpa using hb)
  · exact Inv_finish C m0 _ _ h2 rfl rfl rfl

/-- Shape of `on_resolved` on a null address set: `finish` runs and the
statements after the `if` run on the freed record. -/
theorem on_resolved_null (m : Machine σ) (hc : m.crashed = false) (hf : m.freed = false)
    (ha : m.req.addresses = none) (he : m.req.ep = none) :
    on_resolved m none =
      { m with
        req := { m.req with addresses := none, next_address := 0 }
        freed := true
        crashed := true
        pending := []
        trace := m.trace ++
          [Effect.on_response m.req.on_response m.req.user_data none, Effect.parser_destroy,
            Effect.slice_unref m.req.request_text, Effect.free_host m.req.host,
            Effect.free_req, Effect.use_after_free, Effect.use_after_free,
            Effect.use_after_free, Effect.null_deref] } := by
  simp [on_resolved, finish, store, deref, emit, next_address, crash, hc, hf, ha, he]

theorem on_resolved_some (m : Machine σ) (addrs : List grpc_resolved_address)
    (hc : m.crashed = false) (hf : m.freed = false) :
    on_resolved m (some addrs) =
      next_address { m with req := { m.req with addresses := some addrs, next_address := 0 } } := by
  simp [on_resolved, store, deref, hc, hf]

theorem Inv_on_resolved (C : Collab σ) (m0 m : Machine σ)
    (a : Option (List grpc_resolved_address)) (hI : Inv C m0 m)
    (hc : m.crashed = false) (hf : m.freed = false) (hp : m.pending = [])
    (hph : Phase m.req Callback.on_resolved) :
    Inv C m0 (on_resolved m a) := by
  obtain ⟨ha, hn, he, hb⟩ := hph
  obtain ⟨req, freed, crashed, pending, trace⟩ := m
  simp only at hc hf hp ha hn he hb
  subst hc hf hp
  cases a with
  | none =>
    rw [on_resolved_null _ rfl rfl ha he]
    have h1 : Inv C m0 ⟨{ req with addresses := none, next_address := 0 }, false, false, [],
        trace⟩ := by
      have e : ({ req with addresses := none, next_address := 0 } : internal_request σ) = req := by
        cases req
        simp_all
      rw [e]
      exact hI
    exact Inv_append_neutral C m0 _ _ true true h1 rfl (by simp [Effect.neutral])
  | some addrs =>
    rw [on_resolved_some _ addrs rfl rfl]
    obtain ⟨hpend, hcur, hcur0, hidx, hsound, hd, hem, hrt, hor, hud, hssl, hh⟩ := hI
    simp only at hcur hcur0 hidx hsound hd hem hrt hor hud hssl hh
    refine Inv_next_address C m0 _ ⟨Or.inl rfl, ?_, ?_, ?_, ?_, hd, hem, hrt, hor, hud, hssl, hh⟩
      rfl rfl rfl rfl hb
    · intro _ _
      exact Nat.zero_le _
    · intro _
      rfl
    · simpa [hn] using hidx
    · exact connect_indices_nil_sound C req _ trace (by simpa [hn] using hidx) rfl hsound

/-- Delivery of one outcome keeps the invariant. -/
theorem Inv_step (C : Collab σ) (m0 m m1 : Machine σ) (ev : Event) (hI : Inv C m0 m)
    (hs : step C m ev = some m1) : Inv C m0 m1 := by
  unfold step at hs
  split at hs
  · rename_i hmem
    simp only [Option.some.injEq] at hs
    subst hs
    rcases hI.pending with hp | ⟨cb, hp, hc, hf, hph⟩
    · simp [hp] at hmem
    · simp only [hp, List.mem_singleton] at hmem
      have hI1 : Inv C m0 { m with pending := [] } :=
        { hI with pending := Or.inl rfl }
      have he : m.pending.erase ev.callback = [] := by simp [hp, hmem]
      rw [he]
      cases ev with
      | resolved a =>
        subst hmem
        exact Inv_on_resolved C m0 _ a hI1 hc hf rfl hph
      | connected tcp =>
        subst hmem
        exact Inv_on_connected C m0 _ tcp hI1 hc hf rfl hph.1 hph.2
      | secure_transport_setup_done st sep =>
        subst hmem
        exact Inv_on_secure_transport_setup_done C m0 _ st sep hI1 hc hf rfl hph.1 hph.2.2.1
      | write_done st =>
        subst hmem
        exact Inv_done_write C m0 _ st hI1 hc hf rfl hph.1 hph.2.1 hph.2.2
      | read slices st =>
        subst hmem
        exact Inv_on_read C m0 _ slices st hI1 hc hf rfl hph.1 hph.2
  · simp at hs

theorem run_append (C : Collab σ) (m : Machine σ) (l1 l2 : List Event) :
    run C m (l1 ++ l2) = (run C m l1).bind (fun m1 => run C m1 l2) := by
  induction l1 generalizing m with
  | nil => simp [run]
  | cons e l1 ih =>
    simp only [List.cons_append, run]
    cases step C m e with
    | none => simp
    | some m1 => simp [ih]

/-- Every state of a run satisfies the invariant. -/
theorem Inv_run (C : Collab σ) (m0 : Machine σ) (evs : List Event) :
    ∀ (ma m : Machine σ), Inv C m0 ma → run C ma evs = some m → Inv C m0 m := by
  induction evs with
  | nil =>
    intro ma m hI h
    simp only [run, Option.some.injEq] at h
    subst h
    exact hI
  | cons e evs ih =>
    intro ma m hI h
    simp only [run] at h
    cases hs : step C ma e with
    | none => simp [hs] at h
    | some m1 =>
      simp only [hs, Option.some_bind] at h
      exact ih m1 m (Inv_step C m0 ma m1 e hI hs) h

/-! ## Fields the callbacks leave alone -/

theorem same_core_trans (r r1 r2 : internal_request σ) (h1 : same_core r r1)
    (h2 : same_core r1 r2) : same_core r r2 :=
  ⟨h2.1.trans h1.1, h2.2.trans h1.2⟩

theorem emit_core (m : Machine σ) (e : Effect σ) : same_core m.req (emit m e).req := by
  rw [(emit_fields m e).2.2.2]
  exact ⟨rfl, rfl⟩

theorem store_core (m : Machine σ) (f : internal_request σ → internal_request σ)
    (hf : ∀ r, same_core r (f r)) : same_core m.req (store m f).req := by
  obtain ⟨req, freed, crashed, pending, trace⟩ := m
  cases crashed <;> cases freed <;> simp [store, deref, emit, hf, same_core]
  all_goals exact hf req

theorem finish_core (m : Machine σ) (b : Bool) : same_core m.req (finish m b).req := by
  obtain ⟨req, freed, crashed, pending, trace⟩ := m
  cases crashed <;> cases freed <;> cases ha : req.addresses <;> cases he : req.ep <;>
    simp [finish, emit, deref, ha, he, same_core]

theorem next_address_core (m : Machine σ) : same_core m.req (next_address m).req := by
  obtain ⟨req, freed, crashed, pending, trace⟩ := m
  cases crashed <;> cases freed <;> cases ha : req.addresses <;> cases he : req.ep <;>
    simp [next_address, finish, emit, deref, store, crash, register, ha, he, same_core] <;>
    split <;> (try split) <;> simp [ha]

theorem notify_on_read_core (C : Collab σ) (m : Machine σ) :
    same_core m.req (notify_on_read C m).req := by
  obtain ⟨req, freed, crashed, pending, trace⟩ := m
  cases crashed <;> cases freed <;> cases he : req.ep <;>
    simp [notify_on_read, emit, deref, crash, register, he, same_core]

theorem start_write_core (C : Collab σ) (m : Machine σ) :
    same_core m.req (start_write C m).req := by
  obtain ⟨req, freed, crashed, pending, trace⟩ := m
  cases crashed <;> cases freed <;> cases ha : req.addresses <;> cases he : req.ep <;>
    simp [start_write, on_written, notify_on_read, finish, emit, deref, crash, register, ha, he,
      same_core] <;> split <;> simp [ha]

theorem on_secure_transport_setup_done_core (C : Collab σ) (m : Machine σ)
    (st : grpc_security_status) (sep : Option grpc_endpoint) :
    same_core m.req (on_secure_transport_setup_done C m st sep).req := by
  unfold on_secure_transport_setup_done
  split
  · exact finish_core m false
  · have hs := store_core m (fun r => { r with ep := sep }) (fun _ => ⟨rfl, rfl⟩)
    exact same_core_trans _ _ _ hs (start_write_core C _)

theorem on_connected_core (C : Collab σ) (m : Machine σ) (tcp : Option grpc_endpoint) :
    same_core m.req (on_connected C m tcp).req := by
  cases tcp with
  | none => exact next_address_core m
  | some t =>
    have hs := store_core m (fun r => { r with ep := some t }) (fun _ => ⟨rfl, rfl⟩)
    simp only [on_connected]
    split
    · split
      · refine same_core_trans _ _ _ ?_ (emit_core _ _)
        unfold register
        split
        · exact same_core_trans _ _ _ hs (emit_core _ _)
        · exact same_core_trans _ _ _ hs (emit_core _ _)
      · unfold crash
        split <;> exact hs
    · exact same_core_trans _ _ _ hs (start_write_core C _)

theorem done_write_core (C : Collab σ) (m : Machine σ) (st : grpc_endpoint_cb_status) :
    same_core m.req (done_write C m st).req := by
  cases st <;> simp only [done_write, on_written]
  · exact notify_on_read_core C m
  all_goals exact next_address_core m

theorem on_resolved_flag (m : Machine σ) (a : Option (List grpc_resolved_address)) :
    (on_resolved m a).req.have_read_byte = m.req.have_read_byte := by
  unfold on_resolved
  simp only [(next_address_core _).1]
  have h1 := fun (x : Machine σ) =>
    store_core x (fun r => { r with next_address := 0 }) (fun _ => ⟨rfl, rfl⟩)
  rw [(h1 _).1]
  obtain ⟨req, freed, crashed, pending, trace⟩ := m
  cases crashed <;> cases freed <;> cases a <;> cases ha : req.addresses <;> cases he : req.ep <;>
    simp [store, deref, emit, finish, ha, he]

theorem feed_given (C : Collab σ) (slices : List gpr_slice) :
    ∀ p : σ, (feed C p slices).given.isEmpty = !slices.any (fun s => decide (s.length ≠ 0)) := by
  induction slices with
  | nil => intro p; simp [feed]
  | cons s rest ih =>
    intro p
    by_cases hs : s = []
    · simp [feed, hs, ih]
    · cases hp : (C.parser_parse p s).2 <;> simp [feed, hs, hp]

theorem on_read_core (C : Collab σ) (m : Machine σ) (slices : List gpr_slice)
    (st : grpc_endpoint_cb_status) (hc : m.crashed = false) (hf : m.freed = false) :
    (on_read C m slices st).req.have_read_byte =
        (m.req.have_read_byte || slices.any (fun s => decide (s.length ≠ 0)))
      ∧ (on_read C m slices st).req.addresses = m.req.addresses := by
  rw [on_read_live C m slices st hc hf, (emit_fields _ _).2.2.2]
  simp only
  split
  · split
    · rw [(notify_on_read_core _ _).1, (notify_on_read_core _ _).2]
      simp [feed_given]
    · split
      · rw [(finish_core _ _).1, (finish_core _ _).2]
        simp [feed_given]
      · rw [(next_address_core _).1, (next_address_core _).2]
        simp [feed_given]
  · rw [(finish_core _ _).1, (finish_core _ _).2]
    simp [feed_given]

/-- The flag `have_read_byte` after one delivery. -/
theorem flag_step (C : Collab σ) (m0 m m1 : Machine σ) (ev : Event) (hI : Inv C m0 m)
    (hs : step C m ev = some m1) :
    m1.req.have_read_byte = (m.req.have_read_byte || ev.delivers_byte) := by
  unfold step at hs
  split at hs
  · rename_i hmem
    simp only [Option.some.injEq] at hs
    subst hs
    rcases hI.pending with hp | ⟨cb, hp, hc, hf, hph⟩
    · simp [hp] at hmem
    · cases ev with
      | resolved a => simp [dispatch, on_resolved_flag, Event.delivers_byte]
      | connected tcp => simp [dispatch, (on_connected_core _ _ _).1, Event.delivers_byte]
      | secure_transport_setup_done st sep =>
        simp [dispatch, (on_secure_transport_setup_done_core _ _ _ _).1, Event.delivers_byte]
      | write_done st => simp [dispatch, (done_write_core _ _ _).1, Event.delivers_byte]
      | read slices st =>
        simp only [dispatch, Event.delivers_byte]
        exact (on_read_core C { m with pending := m.pending.erase Callback.on_read } slices st
          hc hf).1
  · simp at hs

/-- The flag `have_read_byte` records whether a non-empty buffer has ever been
delivered to the request. -/
theorem flag_run (C : Collab σ) (m0 : Machine σ) (evs : List Event) :
    ∀ (ma m : Machine σ), Inv C m0 ma → run C ma evs = some m →
      m.req.have_read_byte = (ma.req.have_read_byte || ever_delivered evs) := by
  induction evs with
  | nil =>
    intro ma m _ h
    simp only [run, Option.some.injEq] at h
    subst h
    simp [ever_delivered]
  | cons e evs ih =>
    intro ma m hI h
    simp only [run] at h
    cases hs : step C ma e with
    | none => simp [hs] at h
    | some m1 =>
      simp only [hs, Option.some_bind] at h
      rw [ih m1 m (Inv_step C m0 ma m1 e hI hs) h, flag_step C m0 ma m1 e hI hs]
      simp [ever_delivered, Bool.or_assoc]

/-- Once resolved, the address set of the record does not change. -/
theorem addresses_step (C : Collab σ) (m0 m m1 : Machine σ) (ev : Event)
    (addrs : List grpc_resolved_address) (hI : Inv C m0 m)
    (ha : m.req.addresses = some addrs) (hs : step C m ev = some m1) :
    m1.req.addresses = some addrs := by
  unfold step at hs
  split at hs
  · rename_i hmem
    simp only [Option.some.injEq] at hs
    subst hs
    rcases hI.pending with hp | ⟨cb, hp, hc, hf, hph⟩
    · simp [hp] at hmem
    · simp only [hp, List.mem_singleton] at hmem
      cases ev with
      | resolved a =>
        subst hmem
        simp [Phase, Event.callback, ha] at hph
      | connected tcp => simp [dispatch, (on_connected_core _ _ _).2, ha]
      | secure_transport_setup_done st sep =>
        simp [dispatch, (on_secure_transport_setup_done_core _ _ _ _).2, ha]
      | write_done st => simp [dispatch, (done_write_core _ _ _).2, ha]
      | read slices st =>
        simp only [dispatch]
        exact ((on_read_core C { m with pending := m.pending.erase Callback.on_read } slices st
          hc hf).2).trans ha
  · simp at hs

theorem addresses_run (C : Collab σ) (m0 : Machine σ) (addrs : List grpc_resolved_address)
    (evs : List Event) :
    ∀ (ma m : Machine σ), Inv C m0 ma → ma.req.addresses = some addrs →
      run C ma evs = some m → m.req.addresses = some addrs := by
  induction evs with
  | nil =>
    intro ma m _ ha h
    simp only [run, Option.some.injEq] at h
    subst h
    exact ha
  | cons e evs ih =>
    intro ma m hI ha h
    simp only [run] at h
    cases hs : step C ma e with
    | none => simp [hs] at h
    | some m1 =>
      simp only [hs, Option.some_bind] at h
      exact ih m1 m (Inv_step C m0 ma m1 e hI hs) (addresses_step C m0 ma m1 e addrs hI ha hs) h

/-! ## Delivery in a reachable state -/

theorem finish_trace (m : Machine σ) (b : Bool) (hc : m.crashed = false)
    (hf : m.freed = false) :
    finish m b = { m with freed := true, trace := m.trace ++ finish_calls m.req b } := by
  rw [finish_live m b hc hf]
  rfl

/-- In a reachable state an outcome can be delivered exactly when its callback
is the one registration held, and the request is then live. -/
theorem step_of_pending (C : Collab σ) (m0 m : Machine σ) (ev : Event) (hI : Inv C m0 m)
    (hp : ev.callback ∈ m.pending) :
    m.crashed = false ∧ m.freed = false ∧ m.pending = [ev.callback] ∧
      Phase m.req ev.callback ∧
      step C m ev = some (dispatch C { m with pending := [] } ev) := by
  rcases hI.pending with h | ⟨cb, h, hc, hf, hph⟩
  · simp [h] at hp
  · simp only [h, List.mem_singleton] at hp
    subst hp
    refine ⟨hc, hf, h, hph, ?_⟩
    simp [step, h]

theorem step_none_of_no_pending (C : Collab σ) (m : Machine σ) (ev : Event)
    (hp : m.pending = []) : step C m ev = none := by
  simp [step, hp]

theorem run_none_of_no_pending (C : Collab σ) (m : Machine σ) (ev : Event)
    (evs : List Event) (hp : m.pending = []) : run C m (ev :: evs) = none := by
  simp [run, step_none_of_no_pending C m ev hp]

theorem Inv_reachable (C : Collab σ) (m0 m : Machine σ) (evs : List Event)
    (h0 : Initial C m0) (hr : run C m0 evs = some m) : Inv C m0 m :=
  Inv_run C m0 evs m0 m (Inv_initial C m0 h0) hr

theorem responses_append (t u : List (Effect σ)) :
    responses (t ++ u) = responses t ++ responses u := by
  induction t with
  | nil => rfl
  | cons e t ih => cases e <;> simp [responses, ih]

theorem responses_finish_calls (r : internal_request σ) (b : Bool) :
    responses (finish_calls r b) = [if b then some r.parser else none] := by
  cases ha : r.addresses <;> cases he : r.ep <;> simp [finish_calls, responses, ha, he]

theorem connect_indices_finish_calls (r : internal_request σ) (b : Bool) :
    connect_indices (finish_calls r b) = [] := by
  cases ha : r.addresses <;> cases he : r.ep <;> simp [finish_calls, connect_indices, ha, he]

/-- On a live request that owns `ep`, `start_write` keeps the record and first
takes a reference on the request text and writes it to `ep`. -/
theorem start_write_begins (C : Collab σ) (m : Machine σ) (ep : grpc_endpoint)
    (hc : m.crashed = false) (hf : m.freed = false) (he : m.req.ep = some ep) :
    (start_write C m).req = m.req ∧
      ∃ rest, (start_write C m).trace = m.trace ++
        [Effect.slice_ref m.req.request_text,
          Effect.endpoint_write ep m.req.request_text C.gpr_inf_future] ++ rest := by
  rw [start_write_live C m ep hc hf he]
  cases hw : ep.write_result
  · exact ⟨rfl, [Effect.endpoint_notify_on_read ep C.gpr_inf_future], rfl⟩
  · exact ⟨rfl, [], by simp⟩
  · simp only
    rw [finish_trace { m with trace := m.trace ++ [Effect.slice_ref m.req.request_text,
      Effect.endpoint_write ep m.req.request_text C.gpr_inf_future] } false hc hf]
    exact ⟨rfl, finish_calls m.req false, rfl⟩

/-! ## The parser over one delivery -/

theorem feed_all_empty (C : Collab σ) (slices : List gpr_slice) (p : σ)
    (h : slices.any (fun s => decide (s.length ≠ 0)) = false) :
    feed C p slices = { parser := p, ok := true, given := [] } := by
  induction slices with
  | nil => rfl
  | cons s rest ih =>
    simp only [List.any_cons, Bool.or_eq_false_iff, decide_eq_false_iff_not, ne_eq,
      not_not] at h
    simp only [feed, h.1, ne_eq, not_true_eq_false, if_false]
    exact ih h.2

theorem feed_ok_given (C : Collab σ) (slices : List gpr_slice) :
    ∀ p : σ, (feed C p slices).ok = true →
      (feed C p slices).given = slices.filter (fun s => decide (s.length ≠ 0)) := by
  induction slices with
  | nil => intro p _; rfl
  | cons s rest ih =>
    intro p h
    by_cases hs : s = []
    · subst hs
      simp only [feed, List.length_nil, ne_eq, not_true_eq_false, if_false] at h ⊢
      simp [ih p h]
    · have hl : s.length ≠ 0 := by simpa using hs
      cases hp : (C.parser_parse p s).2
      · simp [feed, hs, hp] at h
      · simp only [feed, hl, ne_eq, not_false_eq_true, if_true, hp] at h ⊢
        simp [hs, ih _ h]

/-- A failed delivery splits at the buffer the parser rejected: the buffers
before it were accepted, and none after it was given to the parser. -/
theorem feed_fail_split (C : Collab σ) (slices : List gpr_slice) :
    ∀ p : σ, (feed C p slices).ok = false →
      ∃ pre s post, slices = pre ++ s :: post ∧ s.length ≠ 0
        ∧ (feed C p pre).ok = true
        ∧ (C.parser_parse (feed C p pre).parser s).2 = false
        ∧ (feed C p slices).parser = (C.parser_parse (feed C p pre).parser s).1
        ∧ (feed C p slices).given = pre.filter (fun s => decide (s.length ≠ 0)) ++ [s] := by
  induction slices with
  | nil => intro p h; simp [feed] at h
  | cons s rest ih =>
    intro p h
    by_cases hs : s = []
    · subst hs
      simp only [feed, List.length_nil, ne_eq, not_true_eq_false, if_false] at h
      obtain ⟨pre, x, post, h1, h2, h3, h4, h5, h6⟩ := ih p h
      refine ⟨[] :: pre, x, post, by simp [h1], h2, ?_, ?_, ?_, ?_⟩
      · simpa [feed] using h3
      · simpa [feed] using h4
      · simpa [feed] using h5
      · simpa [feed] using h6
    · have hl : s.length ≠ 0 := by simpa using hs
      cases hp : (C.parser_parse p s).2
      · refine ⟨[], s, rest, rfl, hl, rfl, ?_, ?_, ?_⟩
        · simpa [feed] using hp
        · simp [feed, hs, hp]
        · simp [feed, hs, hp]
      · simp only [feed, hl, ne_eq, not_false_eq_true, if_true, hp] at h
        obtain ⟨pre, x, post, h1, h2, h3, h4, h5, h6⟩ := ih _ h
        refine ⟨s :: pre, x, post, by simp [h1], h2, ?_, ?_, ?_, ?_⟩
        · simpa [feed, hs, hp] using h3
        · simpa [feed, hs, hp] using h4
        · simpa [feed, hs, hp] using h5
        · simpa [feed, hs, hp] using h6

theorem connect_indices_map_parse (l : List gpr_slice) :
    connect_indices (l.map (Effect.parser_parse : gpr_slice → Effect σ)) = [] :=
  connect_indices_parse l

theorem responses_map_parse (l : List gpr_slice) :
    responses (l.map (Effect.parser_parse : gpr_slice → Effect σ)) = [] := by
  induction l with
  | nil => rfl
  | cons s l ih => simp [responses, ih]

theorem initial_flag (C : Collab σ) (m0 : Machine σ) (h : Initial C m0) :
    m0.req.have_read_byte = false := by
  rcases h with ⟨request, d, em, cb, ud, rfl⟩ | ⟨request, body, size, d, em, cb, ud, rfl⟩ <;>
    rfl

theorem ever_delivered_append (evs : List Event) (ev : Event) :
    ever_delivered (evs ++ [ev]) = (ever_delivered evs || ev.delivers_byte) := by
  simp [ever_delivered]

theorem responses_unref (n : Nat) :
    responses ([Effect.read_slices_unref n] : List (Effect σ)) = [] := rfl

theorem connect_indices_unref (n : Nat) :
    connect_indices ([Effect.read_slices_unref n] : List (Effect σ)) = [] := rfl

/-! ## Runs that fail over and runs that are served -/

theorem step_single (C : Collab σ) (m : Machine σ) (ev : Event)
    (hp : m.pending = [ev.callback]) :
    step C m ev = some (dispatch C { m with pending := [] } ev) := by
  simp [step, hp]

theorem feed_append (C : Collab σ) (a b : List gpr_slice) :
    ∀ p : σ, feed C p (a ++ b) =
      if (feed C p a).ok then
        { parser := (feed C (feed C p a).parser b).parser
          ok := (feed C (feed C p a).parser b).ok
          given := (feed C p a).given ++ (feed C (feed C p a).parser b).given }
      else feed C p a := by
  induction a with
  | nil => intro p; simp [feed]
  | cons s rest ih =>
    intro p
    by_cases hs : s = []
    · subst hs
      simp only [List.cons_append, feed, List.length_nil, ne_eq, not_true_eq_false, if_false]
      exact ih p
    · have hl : s.length ≠ 0 := by simpa using hs
      cases hp : (C.parser_parse p s).2
      · simp [feed, hs, hp]
      · simp only [List.cons_append, feed, hl, ne_eq, not_false_eq_true, if_true, hp,
          List.append_eq, ih]
        split <;> simp

/-- An OK read whose buffers the parser accepts registers the next read. -/
theorem step_read_ok (C : Collab σ) (req : internal_request σ) (trace : List (Effect σ))
    (e : grpc_endpoint) (sl : List gpr_slice) (he : req.ep = some e)
    (hok : (feed C req.parser sl).ok = true) :
    step C ⟨req, false, false, [Callback.on_read], trace⟩
        (Event.read sl grpc_endpoint_cb_status.GRPC_ENDPOINT_CB_OK) =
      some ⟨{ req with
            parser := (feed C req.parser sl).parser
            have_read_byte := req.have_read_byte || !(feed C req.parser sl).given.isEmpty },
          false, false, [Callback.on_read],
          trace ++ ((feed C req.parser sl).given.map Effect.parser_parse ++
            [Effect.endpoint_notify_on_read e C.gpr_inf_future,
              Effect.read_slices_unref sl.length])⟩ := by
  rw [step_single C _ _ rfl]
  simp only [dispatch]
  rw [on_read_live C _ sl _ rfl rfl]
  simp only [hok, if_true]
  rw [notify_on_read_live C _ e rfl rfl he, emit_live _ _ rfl]
  simp

/-- A sequence of OK reads whose buffers the parser accepts leaves the request
reading, with the parser fed all the buffers. -/
theorem run_reads_ok (C : Collab σ) (e : grpc_endpoint) (reads : List (List gpr_slice)) :
    ∀ (req : internal_request σ) (trace : List (Effect σ)), req.ep = some e →
      (feed C req.parser reads.flatten).ok = true →
      ∃ T, run C ⟨req, false, false, [Callback.on_read], trace⟩
          (reads.map (fun sl => Event.read sl grpc_endpoint_cb_status.GRPC_ENDPOINT_CB_OK)) =
        some ⟨{ req with
              parser := (feed C req.parser reads.flatten).parser
              have_read_byte :=
                req.have_read_byte || !(feed C req.parser reads.flatten).given.isEmpty },
            false, false, [Callback.on_read], trace ++ T⟩
        ∧ responses T = [] := by
  induction reads with
  | nil =>
    intro req trace _ _
    refine ⟨[], ?_, rfl⟩
    simp [run, feed]
  | cons sl rest ih =>
    intro req trace he hok
    simp only [List.flatten_cons] at hok ⊢
    rw [feed_append] at hok ⊢
    cases hsl : (feed C req.parser sl).ok
    · simp [hsl] at hok
    · simp only [hsl, if_true] at hok ⊢
      obtain ⟨T, hT, hresp⟩ := ih
        { req with
          parser := (feed C req.parser sl).parser
          have_read_byte := req.have_read_byte || !(feed C req.parser sl).given.isEmpty }
        (trace ++ ((feed C req.parser sl).given.map Effect.parser_parse ++
            [Effect.endpoint_notify_on_read e C.gpr_inf_future,
              Effect.read_slices_unref sl.length])) he hok
      refine ⟨((feed C req.parser sl).given.map Effect.parser_parse ++
            [Effect.endpoint_notify_on_read e C.gpr_inf_future,
              Effect.read_slices_unref sl.length]) ++ T, ?_, ?_⟩
      · simp only [List.map_cons, run]
        rw [step_read_ok C req trace e sl he hsl]
        simp only [Option.some_bind]
        rw [hT]
        cases (feed C req.parser sl).given <;>
          cases (feed C (feed C req.parser sl).parser rest.flatten).given <;>
          simp [Bool.or_assoc]
      · simp only [responses_append, responses_map_parse, hresp, List.append_nil]
        rfl

theorem step_connect_failed (C : Collab σ) (req : internal_request σ)
    (trace : List (Effect σ)) (addrs : List grpc_resolved_address)
    (ha : req.addresses = some addrs) (hn : req.next_address < addrs.length) :
    ∃ T, step C ⟨req, false, false, [Callback.on_connected], trace⟩ (Event.connected none) =
        some ⟨{ req with next_address := req.next_address + 1 }, false, false,
          [Callback.on_connected], trace ++ T⟩
      ∧ responses T = [] := by
  have hget : addrs[req.next_address]? = some (addrs.get ⟨req.next_address, hn⟩) :=
    List.getElem?_eq_getElem hn
  refine ⟨[Effect.tcp_client_connect req.next_address (addrs.get ⟨req.next_address, hn⟩)
    req.em req.deadline], ?_, rfl⟩
  rw [step_single C _ _ rfl]
  simp only [dispatch, on_connected]
  rw [next_address_connect _ addrs _ rfl rfl ha hget]
  rfl

/-- After resolution to `addrs` and `k` connects without an endpoint, with
`k` less than the number of addresses, connect number `k + 1` is outstanding. -/
theorem run_failed_connects (C : Collab σ) (req : internal_request σ)
    (trace : List (Effect σ)) (addrs : List grpc_resolved_address) (k : Nat)
    (hk : k < addrs.length) :
    ∃ T, run C ⟨req, false, false, [Callback.on_resolved], trace⟩ (failed_connects addrs k) =
        some ⟨{ req with addresses := some addrs, next_address := k + 1 }, false, false,
          [Callback.on_connected], trace ++ T⟩
      ∧ responses T = [] := by
  induction k with
  | zero =>
    have hget : addrs[0]? = some (addrs.get ⟨0, hk⟩) := List.getElem?_eq_getElem hk
    refine ⟨[Effect.tcp_client_connect 0 (addrs.get ⟨0, hk⟩) req.em req.deadline], ?_, rfl⟩
    simp only [failed_connects, List.replicate_zero, run]
    rw [step_single C _ _ rfl]
    simp only [dispatch, Option.some_bind]
    rw [on_resolved_some _ addrs rfl rfl, next_address_connect _ addrs _ rfl rfl rfl hget]
    simp
  | succ k ih =>
    obtain ⟨T, hT, hresp⟩ := ih (Nat.lt_of_succ_lt hk)
    obtain ⟨T1, hT1, hresp1⟩ := step_connect_failed C
      { req with addresses := some addrs, next_address := k + 1 } (trace ++ T) addrs rfl hk
    refine ⟨T ++ T1, ?_, ?_⟩
    · have hsplit : failed_connects addrs (k + 1) =
          failed_connects addrs k ++ [Event.connected none] := by
        simp [failed_connects, List.replicate_succ']
      rw [hsplit, run_append, hT]
      simp only [Option.some_bind, run]
      rw [hT1]
      simp
    · simp [responses_append, hresp, hresp1]

/-- With every address tried, one more connect without an endpoint ends the
request in failure. -/
theorem step_connect_exhausted (C : Collab σ) (req : internal_request σ)
    (trace : List (Effect σ)) (addrs : List grpc_resolved_address)
    (ha : req.addresses = some addrs) (hn : req.next_address = addrs.length) :
    step C ⟨req, false, false, [Callback.on_connected], trace⟩ (Event.connected none) =
      some ⟨req, true, false, [], trace ++ finish_calls req false⟩ := by
  rw [step_single C _ _ rfl]
  simp only [dispatch, on_connected]
  rw [next_address_exhausted _ addrs rfl ha hn, finish_trace _ false rfl rfl]

/-- A last delivery with a status other than OK, on a request that has read a
byte by then, ends the request with the verdict of the parser. -/
theorem step_read_last (C : Collab σ) (req : internal_request σ) (trace : List (Effect σ))
    (sl : List gpr_slice) (st : grpc_endpoint_cb_status)
    (hst : st ≠ grpc_endpoint_cb_status.GRPC_ENDPOINT_CB_OK)
    (hok : (feed C req.parser sl).ok = true)
    (hb : (req.have_read_byte || !(feed C req.parser sl).given.isEmpty) = true) :
    ∃ T, step C ⟨req, false, false, [Callback.on_read], trace⟩ (Event.read sl st) =
        some ⟨{ req with parser := (feed C req.parser sl).parser, have_read_byte := true },
          true, false, [], trace ++ T⟩
      ∧ responses T = [if C.parser_eof (feed C req.parser sl).parser
          then some (feed C req.parser sl).parser else none] := by
  refine ⟨(feed C req.parser sl).given.map Effect.parser_parse
    ++ finish_calls
        { req with parser := (feed C req.parser sl).parser, have_read_byte := true }
        (C.parser_eof (feed C req.parser sl).parser)
    ++ [Effect.read_slices_unref sl.length], ?_, ?_⟩
  · rw [step_single C _ _ rfl]
    simp only [dispatch]
    rw [on_read_live C _ sl st rfl rfl]
    simp only [hok, if_true, hst, if_false, hb]
    rw [finish_trace _ _ rfl rfl, emit_live _ _ rfl]
    simp
  · simp only [responses_append, responses_finish_calls, responses_map_parse,
      responses_unref, List.append_nil, List.nil_append]

/-- A write that does not fail, followed by its completion when it was
pending, leaves a read registered. -/
theorem run_write_served (C : Collab σ) (req : internal_request σ) (trace : List (Effect σ))
    (e : grpc_endpoint) (he : req.ep = some e)
    (hw : e.write_result ≠ grpc_endpoint_write_status.GRPC_ENDPOINT_WRITE_ERROR) :
    ∃ T, run C (start_write C ⟨req, false, false, [], trace⟩)
        (if e.write_result = grpc_endpoint_write_status.GRPC_ENDPOINT_WRITE_PENDING then
          [Event.write_done grpc_endpoint_cb_status.GRPC_ENDPOINT_CB_OK]
         else []) =
        some ⟨req, false, false, [Callback.on_read], trace ++ T⟩
      ∧ responses T = [] := by
  rw [start_write_live C _ e rfl rfl he]
  cases hres : e.write_result
  · refine ⟨[Effect.slice_ref req.request_text,
      Effect.endpoint_write e req.request_text C.gpr_inf_future,
      Effect.endpoint_notify_on_read e C.gpr_inf_future], ?_, rfl⟩
    simp [run]
  · refine ⟨[Effect.slice_ref req.request_text,
      Effect.endpoint_write e req.request_text C.gpr_inf_future,
      Effect.endpoint_notify_on_read e C.gpr_inf_future], ?_, rfl⟩
    simp only [if_true, run, List.nil_append]
    rw [step_single C _ _ rfl]
    simp only [dispatch, done_write, on_written, Option.some_bind]
    rw [notify_on_read_live C _ e rfl rfl he]
    simp
  · exact absurd hres hw

/-- A connect that returns an endpoint, followed by a successful secure setup
(secure request only) and a write that does not fail, leaves a read registered
on the active endpoint. -/
theorem run_connect_served (C : Collab σ) (req : internal_request σ)
    (trace : List (Effect σ)) (tcp sep : grpc_endpoint) (u : Bool) (hu : req.use_ssl = u)
    (hssl : u = true →
      C.ssl_channel_security_context_create req.host = grpc_security_status.GRPC_SECURITY_OK)
    (hw : (active_endpoint u tcp sep).write_result
      ≠ grpc_endpoint_write_status.GRPC_ENDPOINT_WRITE_ERROR) :
    ∃ T, run C ⟨req, false, false, [Callback.on_connected], trace⟩
        ([Event.connected (some tcp)]
          ++ (if u then
                [Event.secure_transport_setup_done grpc_security_status.GRPC_SECURITY_OK
                  (some sep)]
              else [])
          ++ (if (active_endpoint u tcp sep).write_result
                  = grpc_endpoint_write_status.GRPC_ENDPOINT_WRITE_PENDING then
                [Event.write_done grpc_endpoint_cb_status.GRPC_ENDPOINT_CB_OK]
              else [])) =
        some ⟨{ req with ep := some (active_endpoint u tcp sep) }, false, false,
          [Callback.on_read], trace ++ T⟩
      ∧ responses T = [] := by
  cases u
  · simp only [active_endpoint, Bool.false_eq_true, if_false, List.append_nil] at hw ⊢
    obtain ⟨T, hT, hresp⟩ := run_write_served C { req with ep := some tcp } trace tcp rfl hw
    have h1 : step C ⟨req, false, false, [Callback.on_connected], trace⟩
        (Event.connected (some tcp)) =
        some (start_write C ⟨{ req with ep := some tcp }, false, false, [], trace⟩) := by
      rw [step_single C _ _ rfl]
      simp [dispatch, on_connected, store, deref, hu]
    refine ⟨T, ?_, hresp⟩
    simp only [List.singleton_append, run, h1, Option.some_bind]
    exact hT
  · simp only [active_endpoint, if_true] at hw ⊢
    have hctx := hssl rfl
    obtain ⟨T, hT, hresp⟩ := run_write_served C { req with ep := some sep }
      (trace ++ [Effect.setup_secure_transport tcp, Effect.security_context_unref]) sep rfl hw
    have h1 : step C ⟨req, false, false, [Callback.on_connected], trace⟩
        (Event.connected (some tcp)) =
        some ⟨{ req with ep := some tcp }, false, false,
          [Callback.on_secure_transport_setup_done],
          trace ++ [Effect.setup_secure_transport tcp, Effect.security_context_unref]⟩ := by
      rw [step_single C _ _ rfl]
      simp [dispatch, on_connected, store, deref, emit, register, hu, hctx]
    have h2 : step C ⟨{ req with ep := some tcp }, false, false,
          [Callback.on_secure_transport_setup_done],
          trace ++ [Effect.setup_secure_transport tcp, Effect.security_context_unref]⟩
        (Event.secure_transport_setup_done grpc_security_status.GRPC_SECURITY_OK (some sep)) =
        some (start_write C ⟨{ req with ep := some sep }, false, false, [],
          trace ++ [Effect.setup_secure_transport tcp, Effect.security_context_unref]⟩) := by
      rw [step_single C _ _ rfl]
      simp [dispatch, on_secure_transport_setup_done, store, deref]
    refine ⟨[Effect.setup_secure_transport tcp, Effect.security_context_unref] ++ T, ?_, ?_⟩
    · simp only [List.singleton_append, List.cons_append, List.nil_append, run, h1, h2,
        Option.some_bind, List.append_eq]
      rw [hT, List.append_assoc]
      rfl
    · simp [responses_append, hresp, responses]

theorem initial_shape (C : Collab σ) (m0 : Machine σ) (h : Initial C m0) :
    ∃ req trace, m0 = ⟨req, false, false, [Callback.on_resolved], trace⟩
      ∧ req.parser = C.parser_init ∧ req.have_read_byte = false ∧ responses trace = [] := by
  rcases h with ⟨request, d, em, cb, ud, rfl⟩ | ⟨request, body, size, d, em, cb, ud, rfl⟩
  · exact ⟨_, _, rfl, rfl, rfl, rfl⟩
  · exact ⟨_, _, rfl, rfl, rfl, rfl⟩

/-- After resolution to `addrs`, the connects made so far went to the addresses
`0, 1, ..., next_address - 1` of `addrs`, in this order, and no read of the
address array was out of bounds. -/
theorem connects_in_order (C : Collab σ) (m0 m : Machine σ)
    (addrs : List grpc_resolved_address) (evs : List Event) (h0 : Initial C m0)
    (hr : run C m0 (Event.resolved (some addrs) :: evs) = some m) :
    m.req.next_address ≤ addrs.length
      ∧ connect_indices m.trace = List.range m.req.next_address
      ∧ (∀ i a em dl, Effect.tcp_client_connect i a em dl ∈ m.trace → addrs[i]? = some a)
      ∧ (∀ i, Effect.out_of_bounds i ∉ m.trace) := by
  have hI0 := Inv_initial C m0 h0
  have hI := Inv_reachable C m0 m _ h0 hr
  simp only [run] at hr
  cases hs : step C m0 (Event.resolved (some addrs)) with
  | none => simp [hs] at hr
  | some m1 =>
    simp only [hs, Option.some_bind] at hr
    have hI1 := Inv_step C m0 m0 m1 _ hI0 hs
    have ha1 : m1.req.addresses = some addrs := by
      obtain ⟨req, trace, rfl, _, _, _⟩ := initial_shape C m0 h0
      rw [step_single C _ _ rfl] at hs
      simp only [Option.some.injEq] at hs
      subst hs
      simp only [dispatch]
      rw [on_resolved_some _ addrs rfl rfl, (next_address_core _).2]
    have ha := addresses_run C m0 addrs evs m1 m hI1 ha1 hr
    refine ⟨hI.cursor addrs ha, hI.indices, ?_, ?_⟩
    · intro i a em dl hmem
      have := hI.sound _ hmem
      simp only [Effect.sound, ha, Option.some.injEq] at this
      obtain ⟨⟨addrs1, h1, h2⟩, _⟩ := this
      subst h1
      exact h2
    · intro i hmem
      exact hI.sound _ hmem

theorem failed_connects_succ (addrs : List grpc_resolved_address) (k : Nat) :
    failed_connects addrs (k + 1) = failed_connects addrs k ++ [Event.connected none] := by
  simp [failed_connects, List.replicate_succ']

/-- All connects fail: the request ends in failure with the cursor at the end
of the address list. -/
theorem run_all_connects_fail (C : Collab σ) (req : internal_request σ)
    (trace : List (Effect σ)) (addrs : List grpc_resolved_address)
    (hN : 1 ≤ addrs.length) :
    ∃ T, run C ⟨req, false, false, [Callback.on_resolved], trace⟩
        (failed_connects addrs addrs.length) =
        some ⟨{ req with addresses := some addrs, next_address := addrs.length }, true, false, [],
          trace ++ T⟩
      ∧ responses T = [none] := by
  obtain ⟨k, hk⟩ : ∃ k, addrs.length = k + 1 := ⟨addrs.length - 1, by omega⟩
  obtain ⟨T, hT, hresp⟩ := run_failed_connects C req trace addrs k (by omega)
  refine ⟨T ++ finish_calls { req with addresses := some addrs, next_address := k + 1 } false,
    ?_, ?_⟩
  · rw [hk, failed_connects_succ, run_append, hT]
    simp only [Option.some_bind, run]
    rw [step_connect_exhausted C _ _ addrs rfl hk.symm]
    simp
  · simp [responses_append, hresp, responses_finish_calls]

/-- The first `N - 1` connects fail and the `N`-th is served with a response
the parser accepts as complete: the request ends with that response, the
cursor at the end of the address list. -/
theorem run_last_address_served (C : Collab σ) (req : internal_request σ)
    (trace : List (Effect σ)) (addrs : List grpc_resolved_address)
    (tcp sep : grpc_endpoint) (reads : List (List gpr_slice)) (last : List gpr_slice)
    (st : grpc_endpoint_cb_status)
    (hN : 1 ≤ addrs.length) (hb0 : req.have_read_byte = false)
    (hssl : req.use_ssl = true →
      C.ssl_channel_security_context_create req.host = grpc_security_status.GRPC_SECURITY_OK)
    (hw : (active_endpoint req.use_ssl tcp sep).write_result
      ≠ grpc_endpoint_write_status.GRPC_ENDPOINT_WRITE_ERROR)
    (hst : st ≠ grpc_endpoint_cb_status.GRPC_ENDPOINT_CB_OK)
    (hok : (feed C req.parser (reads.flatten ++ last)).ok = true)
    (hne : (feed C req.parser (reads.flatten ++ last)).given ≠ []) :
    ∃ T, run C ⟨req, false, false, [Callback.on_resolved], trace⟩
        (failed_connects addrs (addrs.length - 1)
          ++ served req.use_ssl tcp sep reads last st) =
        some ⟨{ req with
              addresses := some addrs
              next_address := addrs.length
              ep := some (active_endpoint req.use_ssl tcp sep)
              parser := (feed C req.parser (reads.flatten ++ last)).parser
              have_read_byte := true },
          true, false, [], trace ++ T⟩
      ∧ responses T = [if C.parser_eof (feed C req.parser (reads.flatten ++ last)).parser
          then some (feed C req.parser (reads.flatten ++ last)).parser else none] := by
  obtain ⟨k, hk⟩ : ∃ k, addrs.length = k + 1 := ⟨addrs.length - 1, by omega⟩
  have hk1 : addrs.length - 1 = k := by omega
  -- the parser over the OK deliveries, then over the last one
  have hfa := feed_append C reads.flatten last req.parser
  cases hok1 : (feed C req.parser reads.flatten).ok
  · rw [hfa] at hok
    simp [hok1] at hok
  · simp only [hok1, if_true] at hfa
    rw [hfa] at hok hne ⊢
    simp only at hok hne ⊢
    obtain ⟨T1, hT1, hresp1⟩ := run_failed_connects C req trace addrs k (by omega)
    obtain ⟨T2, hT2, hresp2⟩ := run_connect_served C
      { req with addresses := some addrs, next_address := k + 1 } (trace ++ T1) tcp sep
      req.use_ssl rfl hssl hw
    obtain ⟨T3, hT3, hresp3⟩ := run_reads_ok C (active_endpoint req.use_ssl tcp sep) reads
      { req with
        addresses := some addrs
        next_address := k + 1
        ep := some (active_endpoint req.use_ssl tcp sep) }
      (trace ++ T1 ++ T2) rfl hok1
    have hb : (({ req with
        addresses := some addrs
        next_address := k + 1
        ep := some (active_endpoint req.use_ssl tcp sep)
        parser := (feed C req.parser reads.flatten).parser
        have_read_byte :=
          req.have_read_byte || !(feed C req.parser reads.flatten).given.isEmpty }
          : internal_request σ).have_read_byte
        || !(feed C (feed C req.parser reads.flatten).parser last).given.isEmpty) = true := by
      simp only [hb0, Bool.false_or]
      cases h1 : (feed C req.parser reads.flatten).given <;>
        cases h2 : (feed C (feed C req.parser reads.flatten).parser last).given <;>
        simp_all
    obtain ⟨T4, hT4, hresp4⟩ := step_read_last C _ (trace ++ T1 ++ T2 ++ T3) last st hst hok hb
    refine ⟨T1 ++ T2 ++ T3 ++ T4, ?_, ?_⟩
    · have hsplit : failed_connects addrs (addrs.length - 1)
          ++ served req.use_ssl tcp sep reads last st =
          failed_connects addrs k ++
            (([Event.connected (some tcp)]
              ++ (if req.use_ssl then
                    [Event.secure_transport_setup_done grpc_security_status.GRPC_SECURITY_OK
                      (some sep)]
                  else [])
              ++ (if (active_endpoint req.use_ssl tcp sep).write_result
                      = grpc_endpoint_write_status.GRPC_ENDPOINT_WRITE_PENDING then
                    [Event.write_done grpc_endpoint_cb_status.GRPC_ENDPOINT_CB_OK]
                  else []))
            ++ (reads.map
                  (fun sl => Event.read sl grpc_endpoint_cb_status.GRPC_ENDPOINT_CB_OK)
              ++ [Event.read last st])) := by
        rw [hk1]
        simp only [served, List.append_assoc]
      rw [hsplit, run_append, hT1]
      simp only [Option.some_bind]
      rw [run_append, hT2]
      simp only [Option.some_bind]
      rw [run_append, hT3]
      simp only [Option.some_bind, run]
      rw [hT4]
      simp [hk, List.append_assoc]
    · simp [responses_append, hresp1, hresp2, hresp3, hresp4]

/-- A delivery to `on_read` that leaves the flag `have_read_byte` set issues
no connect: `on_read` calls `next_address` only with the flag clear. -/
theorem on_read_no_connect (C : Collab σ) (m : Machine σ) (slices : List gpr_slice)
    (st : grpc_endpoint_cb_status) (ep : grpc_endpoint)
    (hc : m.crashed = false) (hf : m.freed = false) (he : m.req.ep = some ep)
    (hb : (m.req.have_read_byte || slices.any (fun s => decide (s.length ≠ 0))) = true) :
    connect_indices (on_read C m slices st).trace = connect_indices m.trace := by
  have hflag : (m.req.have_read_byte || !(feed C m.req.parser slices).given.isEmpty) = true := by
    rw [feed_given]
    simpa using hb
  rw [on_read_live C m slices st hc hf]
  simp only [hflag, if_true]
  split
  · split
    · rw [notify_on_read_live C _ ep, emit_live]
      · simp only [connect_indices_append, connect_indices_map_parse, connect_indices_unref,
          List.append_nil]
        exact List.append_nil _
      all_goals first | exact hc | exact hf | exact he
    · rw [finish_trace, emit_live]
      · simp only [connect_indices_append, connect_indices_map_parse, connect_indices_unref,
          connect_indices_finish_calls, List.append_nil]
      all_goals first | exact hc | exact hf
  · rw [finish_trace, emit_live]
    · simp only [connect_indices_append, connect_indices_map_parse, connect_indices_unref,
        connect_indices_finish_calls, List.append_nil]
    all_goals first | exact hc | exact hf

/-- With the flag `have_read_byte` set, only a read can be outstanding. -/
theorem pending_of_flag (C : Collab σ) (m0 m : Machine σ) (hI : Inv C m0 m)
    (hb : m.req.have_read_byte = true) :
    ∀ cb ∈ m.pending, cb = Callback.on_read := by
  intro cb hcb
  rcases hI.pending with hp | ⟨cb1, hp, _, _, hph⟩
  · simp [hp] at hcb
  · simp only [hp, List.mem_singleton] at hcb
    subst hcb
    cases cb <;> simp_all [Phase]

/-- With the flag `have_read_byte` set, a delivery keeps the flag set and
issues no connect. -/
theorem step_after_byte (C : Collab σ) (m0 m m1 : Machine σ) (ev : Event)
    (hI : Inv C m0 m) (hb : m.req.have_read_byte = true) (hs : step C m ev = some m1) :
    m1.req.have_read_byte = true ∧ connect_indices m1.trace = connect_indices m.trace := by
  refine ⟨by rw [flag_step C m0 m m1 ev hI hs, hb]; rfl, ?_⟩
  have hmem : ev.callback ∈ m.pending := by
    unfold step at hs
    split at hs
    · assumption
    · simp at hs
  have hcb := pending_of_flag C m0 m hI hb _ hmem
  obtain ⟨hc, hf, hpe, hph, hstep⟩ := step_of_pending C m0 m ev hI hmem
  rw [hstep] at hs
  simp only [Option.some.injEq] at hs
  subst hs
  cases ev with
  | read slices st =>
    obtain ⟨ep, hep⟩ := Option.isSome_iff_exists.mp hph.2
    simp only [dispatch]
    exact on_read_no_connect C { m with pending := [] } slices st ep hc hf hep (by simp [hb])
  | resolved a => simp [Event.callback] at hcb
  | connected tcp => simp [Event.callback] at hcb
  | secure_transport_setup_done s e => simp [Event.callback] at hcb
  | write_done s => simp [Event.callback] at hcb

theorem run_after_byte (C : Collab σ) (m0 : Machine σ) (evs : List Event) :
    ∀ (m m1 : Machine σ), Inv C m0 m → m.req.have_read_byte = true →
      run C m evs = some m1 →
      m1.req.have_read_byte = true ∧ connect_indices m1.trace = connect_indices m.trace := by
  induction evs with
  | nil =>
    intro m m1 _ hb h
    simp only [run, Option.some.injEq] at h
    subst h
    exact ⟨hb, rfl⟩
  | cons e evs ih =>
    intro m m1 hI hb h
    simp only [run] at h
    cases hs : step C m e with
    | none => simp [hs] at h
    | some m2 =>
      simp only [hs, Option.some_bind] at h
      obtain ⟨hb2, hc2⟩ := step_after_byte C m0 m m2 e hI hb hs
      obtain ⟨hb1, hc1⟩ := ih m2 m1 (Inv_step C m0 m m2 e hI hs) hb2 h
      exact ⟨hb1, hc1.trans hc2⟩

/-! ## Claims -/

/-- C1 (exactly-once completion; the code diverges).  When the resolver
delivers a null address set to a request started by `grpc_httpcli_get`,
`on_resolved` runs `finish` once and then keeps going: it stores to the freed
record twice, calls `next_address` on it and stops on the null address set. -/
theorem get_resolved_null_uses_freed_request (C : Collab σ)
    (request : grpc_httpcli_request) (d : gpr_timespec) (em cb ud : Nat) :
    ∃ m, run C (grpc_httpcli_get C request d em cb ud) [Event.resolved none] = some m
      ∧ m.freed = true ∧ m.crashed = true
      ∧ m.trace =
        [Effect.resolve_address request.host
            (if request.use_ssl then Service.https else Service.http),
          Effect.on_response cb ud none, Effect.parser_destroy,
          Effect.slice_unref (C.format_get_request request),
          Effect.free_host (if request.use_ssl then some request.host else none),
          Effect.free_req,
          Effect.use_after_free, Effect.use_after_free, Effect.use_after_free,
          Effect.null_deref] := by
  simp [run, step, dispatch, Event.callback, grpc_httpcli_get, new_request, on_resolved,
    finish, emit, deref, store, next_address, crash]

/-- C2 (resolution failure; the code diverges on the null case).  For a
request started by `grpc_httpcli_post`: an address set with zero entries ends
in `finish` with failure, no connect and nothing after it; a null address set
also reports failure without a connect, but `on_resolved` then goes on using
the freed record and faults. -/
theorem post_resolved_without_addresses (C : Collab σ)
    (request : grpc_httpcli_request) (body : List Nat) (size : Nat) (d : gpr_timespec)
    (em cb ud : Nat) :
    (∃ m, step C (grpc_httpcli_post C request body size d em cb ud) (Event.resolved (some []))
        = some m
      ∧ m.pending = [] ∧ m.crashed = false ∧ connect_indices m.trace = []
      ∧ m.trace =
        [Effect.resolve_address request.host
            (if request.use_ssl then Service.https else Service.http),
          Effect.on_response cb ud none, Effect.parser_destroy,
          Effect.resolved_addresses_destroy [],
          Effect.slice_unref (C.format_post_request request body size),
          Effect.free_host (if request.use_ssl then some request.host else none),
          Effect.free_req])
    ∧ (∃ m, step C (grpc_httpcli_post C request body size d em cb ud) (Event.resolved none)
        = some m
      ∧ m.pending = [] ∧ m.crashed = true ∧ connect_indices m.trace = []
      ∧ m.trace =
        [Effect.resolve_address request.host
            (if request.use_ssl then Service.https else Service.http),
          Effect.on_response cb ud none, Effect.parser_destroy,
          Effect.slice_unref (C.format_post_request request body size),
          Effect.free_host (if request.use_ssl then some request.host else none),
          Effect.free_req,
          Effect.use_after_free, Effect.use_after_free, Effect.use_after_free,
          Effect.null_deref]) := by
  constructor <;>
    simp [step, dispatch, Event.callback, grpc_httpcli_post, new_request, on_resolved,
      finish, emit, deref, store, next_address, crash, connect_indices]

/-- C3 (failover correctness).  For a request started by `grpc_httpcli_get` or
`grpc_httpcli_post` and resolved to `N ≥ 1` addresses: (1) after any further
outcomes the connects made went to the indices `0, 1, ..., next_address - 1`
in this order, with `next_address ≤ N`, each to the address stored at its
index, and no read of the address array was out of bounds; (2) when the first
`N - 1` connects report no endpoint and the `N`-th is served (secure setup OK
for a secure request, a write that does not fail, deliveries the parser
accepts, at least one non-empty buffer, and a complete response at the end of
the stream), the request finishes once, with the response, after connects to
exactly the indices `0..N-1`; (3) when all `N` connects report no endpoint the
request finishes once, with `NULL`, after connects to exactly the indices
`0..N-1`. -/
theorem failover_correct (C : Collab σ) (m0 : Machine σ)
    (addrs : List grpc_resolved_address) (h0 : Initial C m0) (hN : 1 ≤ addrs.length) :
    (∀ evs m, run C m0 (Event.resolved (some addrs) :: evs) = some m →
      m.req.next_address ≤ addrs.length
        ∧ connect_indices m.trace = List.range m.req.next_address
        ∧ (∀ i a em dl, Effect.tcp_client_connect i a em dl ∈ m.trace → addrs[i]? = some a)
        ∧ (∀ i, Effect.out_of_bounds i ∉ m.trace)) ∧
    (∀ tcp sep reads last st,
      (m0.req.use_ssl = true →
        C.ssl_channel_security_context_create m0.req.host
          = grpc_security_status.GRPC_SECURITY_OK) →
      (active_endpoint m0.req.use_ssl tcp sep).write_result
        ≠ grpc_endpoint_write_status.GRPC_ENDPOINT_WRITE_ERROR →
      st ≠ grpc_endpoint_cb_status.GRPC_ENDPOINT_CB_OK →
      (feed C C.parser_init (reads.flatten ++ last)).ok = true →
      (feed C C.parser_init (reads.flatten ++ last)).given ≠ [] →
      C.parser_eof (feed C C.parser_init (reads.flatten ++ last)).parser = true →
      ∃ m, run C m0 (failed_connects addrs (addrs.length - 1)
            ++ served m0.req.use_ssl tcp sep reads last st) = some m
        ∧ responses m.trace = [some (feed C C.parser_init (reads.flatten ++ last)).parser]
        ∧ connect_indices m.trace = List.range addrs.length
        ∧ m.req.ep = some (active_endpoint m0.req.use_ssl tcp sep)
        ∧ m.pending = [] ∧ m.freed = true ∧ m.crashed = false) ∧
    (∃ m, run C m0 (failed_connects addrs addrs.length) = some m
      ∧ responses m.trace = [none]
      ∧ connect_indices m.trace = List.range addrs.length
      ∧ m.pending = [] ∧ m.freed = true ∧ m.crashed = false) := by
  refine ⟨fun evs m hr => connects_in_order C m0 m addrs evs h0 hr, ?_, ?_⟩
  · intro tcp sep reads last st hssl hw hst hok hne heof
    obtain ⟨req, trace, hm0, hp, hb, hresp0⟩ := initial_shape C m0 h0
    subst hm0
    simp only at hssl hw
    rw [← hp] at hok hne heof ⊢
    obtain ⟨T, hT, hresp⟩ := run_last_address_served C req trace addrs tcp sep reads last st
      hN hb hssl hw hst hok hne
    refine ⟨_, hT, ?_, ?_, rfl, rfl, rfl, rfl⟩
    · simp only [responses_append, hresp0, hresp, heof, if_true, List.nil_append]
    · have hr : run C ⟨req, false, false, [Callback.on_resolved], trace⟩
          (Event.resolved (some addrs) :: (List.replicate (addrs.length - 1)
            (Event.connected none) ++ served req.use_ssl tcp sep reads last st)) = some _ := hT
      exact (connects_in_order C _ _ addrs _ h0 hr).2.1
  · obtain ⟨req, trace, hm0, hp, hb, hresp0⟩ := initial_shape C m0 h0
    subst hm0
    obtain ⟨T, hT, hresp⟩ := run_all_connects_fail C req trace addrs hN
    refine ⟨_, hT, ?_, ?_, rfl, rfl, rfl⟩
    · simp only [responses_append, hresp0, hresp, List.nil_append]
    · have hr : run C ⟨req, false, false, [Callback.on_resolved], trace⟩
          (Event.resolved (some addrs) :: List.replicate addrs.length
            (Event.connected none)) = some _ := hT
      exact (connects_in_order C _ _ addrs _ h0 hr).2.1

/-- C3, evaluated for `sample_start` and two addresses: the first connect
fails, the second is served with a two-byte response and end of stream. -/
theorem failover_correct_witness :
    (∃ m, run sample_collab sample_start
        [Event.resolved (some [sample_addr0, sample_addr1]), Event.connected none,
          Event.connected (some sample_ep_pending),
          Event.write_done grpc_endpoint_cb_status.GRPC_ENDPOINT_CB_OK,
          Event.read [[72], [], [73]] grpc_endpoint_cb_status.GRPC_ENDPOINT_CB_OK,
          Event.read [] grpc_endpoint_cb_status.GRPC_ENDPOINT_CB_EOF] = some m
      ∧ responses m.trace = [some [72, 73]]
      ∧ connect_indices m.trace = [0, 1]
      ∧ m.req.ep = some sample_ep_pending
      ∧ m.pending = [] ∧ m.freed = true ∧ m.crashed = false) ∧
    (∃ m, run sample_collab sample_start
        [Event.resolved (some [sample_addr0, sample_addr1]), Event.connected none,
          Event.connected none] = some m
      ∧ responses m.trace = [none]
      ∧ connect_indices m.trace = [0, 1]
      ∧ m.pending = [] ∧ m.freed = true ∧ m.crashed = false) := by
  have h := failover_correct sample_collab sample_start [sample_addr0, sample_addr1]
    (Or.inl ⟨_, _, _, _, _, rfl⟩) (by decide)
  exact ⟨h.2.1 sample_ep_pending sample_ep_done [[[72], [], [73]]] []
    grpc_endpoint_cb_status.GRPC_ENDPOINT_CB_EOF (by decide) (by decide) (by decide)
    (by decide) (by decide) (by decide), h.2.2⟩

/-- C4 (read termination decision).  In every state reached from
`grpc_httpcli_get` or `grpc_httpcli_post` by outcomes `evs` with a read
outstanding, for a delivery with a status other than OK in which no buffer is
rejected: the parser is given exactly the non-empty buffers; when no non-empty
buffer has ever been delivered to the request (this delivery included), the
parser is not called and `on_read` calls `next_address`; otherwise `on_read`
runs the terminal path, and the user callback gets the response exactly when
`grpc_httpcli_parser_eof` accepts the parser state, `NULL` otherwise. -/
theorem read_termination_decision (C : Collab σ) (m0 m : Machine σ) (evs : List Event)
    (slices : List gpr_slice) (st : grpc_endpoint_cb_status)
    (h0 : Initial C m0) (hr : run C m0 evs = some m)
    (hp : Callback.on_read ∈ m.pending)
    (hst : st ≠ grpc_endpoint_cb_status.GRPC_ENDPOINT_CB_OK)
    (hok : (feed C m.req.parser slices).ok = true) :
    (feed C m.req.parser slices).given = slices.filter (fun s => decide (s.length ≠ 0)) ∧
    ∃ m1, step C m (Event.read slices st) = some m1 ∧
      (ever_delivered (evs ++ [Event.read slices st]) = false →
        (feed C m.req.parser slices).given = [] ∧
        m1 = emit (next_address { m with pending := [] })
          (Effect.read_slices_unref slices.length)) ∧
      (ever_delivered (evs ++ [Event.read slices st]) = true →
        m1.trace = m.trace
          ++ (feed C m.req.parser slices).given.map Effect.parser_parse
          ++ finish_calls
              { m.req with
                parser := (feed C m.req.parser slices).parser
                have_read_byte := true }
              (C.parser_eof (feed C m.req.parser slices).parser)
          ++ [Effect.read_slices_unref slices.length]
        ∧ responses m1.trace = responses m.trace ++
            [if C.parser_eof (feed C m.req.parser slices).parser
              then some (feed C m.req.parser slices).parser else none]
        ∧ connect_indices m1.trace = connect_indices m.trace
        ∧ m1.pending = [] ∧ m1.freed = true) := by
  have hI := Inv_reachable C m0 m evs h0 hr
  obtain ⟨hc, hf, hpe, hph, hstep⟩ := step_of_pending C m0 m (Event.read slices st) hI hp
  have hflag : m.req.have_read_byte = ever_delivered evs := by
    rw [flag_run C m0 evs m0 m (Inv_initial C m0 h0) hr, initial_flag C m0 h0]
    simp
  have hever : ever_delivered (evs ++ [Event.read slices st]) =
      (m.req.have_read_byte || !(feed C m.req.parser slices).given.isEmpty) := by
    rw [ever_delivered_append, hflag, feed_given]
    simp [Event.delivers_byte]
  have hd := on_read_live C { m with pending := [] } slices st hc hf
  simp only [hok, if_true, hst, if_false] at hd
  refine ⟨feed_ok_given C slices m.req.parser hok, _, hstep, ?_, ?_⟩
  · intro hnone
    rw [hever] at hnone
    simp only [Bool.or_eq_false_iff, Bool.not_eq_false', List.isEmpty_iff] at hnone
    have hany : slices.any (fun s => decide (s.length ≠ 0)) = false := by
      have := feed_given C slices m.req.parser
      rw [hnone.2] at this
      simpa using this
    have hfeed := feed_all_empty C slices m.req.parser hany
    refine ⟨hnone.2, ?_⟩
    simp only [dispatch]
    rw [hd]
    simp only [hfeed, hnone.1, List.isEmpty_nil, Bool.not_true, Bool.or_false,
      Bool.false_eq_true, if_false, List.map_nil, List.append_nil]
    rw [← hnone.1]
  · intro hsome
    rw [hever] at hsome
    simp only [dispatch]
    rw [hd]
    simp only [hsome, if_true]
    rw [finish_trace, emit_live]
    · refine ⟨rfl, ?_, ?_, rfl, rfl⟩
      · simp only [responses_append, responses_finish_calls, responses_map_parse,
          responses_unref, List.append_nil]
      · simp only [connect_indices_append, connect_indices_finish_calls,
          connect_indices_map_parse, connect_indices_unref, List.append_nil]
    all_goals first | exact hc | exact hf

/-- C4, evaluated on `sample_reading`: end of stream with a first delivery of
two bytes ends the request with the response; end of stream with no byte ever
delivered calls `next_address`. -/
theorem read_termination_decision_witness :
    (∃ m1, step sample_collab sample_reading
        (Event.read [[72, 73], []] grpc_endpoint_cb_status.GRPC_ENDPOINT_CB_EOF) = some m1
      ∧ responses m1.trace = responses sample_reading.trace ++ [some [72, 73]]
      ∧ m1.pending = [] ∧ m1.freed = true) ∧
    (∃ m1, step sample_collab sample_reading
        (Event.read [[]] grpc_endpoint_cb_status.GRPC_ENDPOINT_CB_EOF) = some m1
      ∧ m1 = emit (next_address { sample_reading with pending := [] })
          (Effect.read_slices_unref 1)) := by
  obtain ⟨_, m1, hs1, _, h1⟩ := read_termination_decision sample_collab sample_start
    sample_reading
    [Event.resolved (some [sample_addr0, sample_addr1]), Event.connected (some sample_ep_done)]
    [[72, 73], []] grpc_endpoint_cb_status.GRPC_ENDPOINT_CB_EOF
    (Or.inl ⟨_, _, _, _, _, rfl⟩) rfl (by decide) (by decide) rfl
  obtain ⟨_, m2, hs2, h2, _⟩ := read_termination_decision sample_collab sample_start
    sample_reading
    [Event.resolved (some [sample_addr0, sample_addr1]), Event.connected (some sample_ep_done)]
    [[]] grpc_endpoint_cb_status.GRPC_ENDPOINT_CB_EOF
    (Or.inl ⟨_, _, _, _, _, rfl⟩) rfl (by decide) (by decide) rfl
  have h1 := h1 (by decide)
  have h2 := h2 (by decide)
  exact ⟨⟨m1, hs1, h1.2.1, h1.2.2.2.1, h1.2.2.2.2⟩, ⟨m2, hs2, h2.2⟩⟩

/-- C5, as stated, fails: with two resolved addresses and no byte read, the
first endpoint answers the write with `GRPC_ENDPOINT_WRITE_ERROR`; the request
ends in failure after one connect, the second address untried. -/
theorem sync_write_error_not_retried :
    ∃ m, run sample_collab sample_start
        [Event.resolved (some [sample_addr0, sample_addr1]),
          Event.connected (some sample_ep_error)] = some m
      ∧ m.req.have_read_byte = false
      ∧ m.req.next_address = 1
      ∧ connect_indices m.trace = [0]
      ∧ responses m.trace = [none]
      ∧ m.pending = [] := by
  refine ⟨_, rfl, ?_⟩
  decide

/-- C5, amended.  On a live request that owns endpoint `ep`: a completion
status other than OK makes `done_write` call `next_address`, which connects to
the next untried address or, with the list exhausted, runs the terminal path
with failure; `GRPC_ENDPOINT_WRITE_ERROR` returned by `grpc_endpoint_write`
makes `start_write` run the terminal path with failure, with no connect; a
write that succeeds (`GRPC_ENDPOINT_WRITE_DONE`, or completion status OK)
registers exactly one read. -/
theorem write_failure_handling (C : Collab σ) (m : Machine σ)
    (addrs : List grpc_resolved_address) (ep : grpc_endpoint)
    (hc : m.crashed = false) (hf : m.freed = false)
    (ha : m.req.addresses = some addrs) (he : m.req.ep = some ep) :
    (∀ st, st ≠ grpc_endpoint_cb_status.GRPC_ENDPOINT_CB_OK →
      done_write C m st = next_address m) ∧
    (∀ a, addrs[m.req.next_address]? = some a →
      (next_address m).trace = m.trace ++
          [Effect.tcp_client_connect m.req.next_address a m.req.em m.req.deadline]
        ∧ (next_address m).pending = m.pending ++ [Callback.on_connected]
        ∧ (next_address m).req.next_address = m.req.next_address + 1) ∧
    (m.req.next_address = addrs.length →
      (next_address m).trace = m.trace ++ finish_calls m.req false
        ∧ (next_address m).pending = m.pending) ∧
    (ep.write_result = grpc_endpoint_write_status.GRPC_ENDPOINT_WRITE_ERROR →
      (start_write C m).trace = m.trace ++
          [Effect.slice_ref m.req.request_text,
            Effect.endpoint_write ep m.req.request_text C.gpr_inf_future]
          ++ finish_calls m.req false
        ∧ (start_write C m).pending = m.pending
        ∧ (start_write C m).freed = true
        ∧ connect_indices (start_write C m).trace = connect_indices m.trace) ∧
    (ep.write_result = grpc_endpoint_write_status.GRPC_ENDPOINT_WRITE_DONE →
      (start_write C m).trace = m.trace ++
          [Effect.slice_ref m.req.request_text,
            Effect.endpoint_write ep m.req.request_text C.gpr_inf_future,
            Effect.endpoint_notify_on_read ep C.gpr_inf_future]
        ∧ (start_write C m).pending = m.pending ++ [Callback.on_read]) ∧
    ((done_write C m grpc_endpoint_cb_status.GRPC_ENDPOINT_CB_OK).trace = m.trace ++
          [Effect.endpoint_notify_on_read ep C.gpr_inf_future]
        ∧ (done_write C m grpc_endpoint_cb_status.GRPC_ENDPOINT_CB_OK).pending
          = m.pending ++ [Callback.on_read]) := by
  refine ⟨?_, ?_, ?_, ?_, ?_, ?_⟩
  · intro st hst
    cases st <;> first | exact absurd rfl hst | rfl
  · intro a hget
    rw [next_address_connect m addrs a hc hf ha hget]
    exact ⟨rfl, rfl, rfl⟩
  · intro hn
    rw [next_address_exhausted m addrs hf ha hn, finish_trace m false hc hf]
    exact ⟨rfl, rfl⟩
  · intro hw
    rw [start_write_live C m ep hc hf he]
    simp only [hw]
    rw [finish_trace, List.append_assoc]
    · refine ⟨rfl, rfl, rfl, ?_⟩
      simp only [connect_indices_append, connect_indices_finish_calls, List.append_nil]
      exact List.append_nil _
    all_goals first | exact hc | exact hf
  · intro hw
    rw [start_write_live C m ep hc hf he]
    simp [hw]
  · simp only [done_write, on_written]
    rw [notify_on_read_live C m ep hc hf he]
    exact ⟨rfl, rfl⟩

/-- C5 amended, evaluated on `sample_machine` (one of two addresses tried). -/
theorem write_failure_handling_witness :
    done_write sample_collab sample_machine grpc_endpoint_cb_status.GRPC_ENDPOINT_CB_ERROR
        = next_address sample_machine
      ∧ (next_address sample_machine).trace =
          [Effect.tcp_client_connect 1 sample_addr1 0 sample_deadline]
      ∧ (next_address sample_machine).pending = [Callback.on_connected] := by
  have h := write_failure_handling sample_collab sample_machine [sample_addr0, sample_addr1]
    sample_ep_done rfl rfl rfl rfl
  exact ⟨h.1 _ (by decide), (h.2.1 sample_addr1 rfl).1, (h.2.1 sample_addr1 rfl).2.1⟩

/-- C6 (parse failure is terminal and immediate).  In every state reached
from `grpc_httpcli_get` or `grpc_httpcli_post` with a read outstanding, and
for every delivery (any buffers, any status) in which the parser rejects a
buffer: the delivery splits at the rejected non-empty buffer, the parser is
given the non-empty buffers before it and that buffer and no later one;
`on_read` then runs the terminal path with failure, issues no connect and no
read, and no outcome can be delivered afterwards, so the parser is never
called again. -/
theorem parse_failure_terminal (C : Collab σ) (m0 m : Machine σ) (evs : List Event)
    (slices : List gpr_slice) (st : grpc_endpoint_cb_status)
    (h0 : Initial C m0) (hr : run C m0 evs = some m)
    (hp : Callback.on_read ∈ m.pending)
    (hfail : (feed C m.req.parser slices).ok = false) :
    (∃ pre s post, slices = pre ++ s :: post ∧ s.length ≠ 0
        ∧ (feed C m.req.parser pre).ok = true
        ∧ (C.parser_parse (feed C m.req.parser pre).parser s).2 = false
        ∧ (feed C m.req.parser slices).given
            = pre.filter (fun s => decide (s.length ≠ 0)) ++ [s]) ∧
    ∃ m1, step C m (Event.read slices st) = some m1
      ∧ m1.trace = m.trace
          ++ (feed C m.req.parser slices).given.map Effect.parser_parse
          ++ finish_calls
              { m.req with
                parser := (feed C m.req.parser slices).parser
                have_read_byte := true } false
          ++ [Effect.read_slices_unref slices.length]
      ∧ responses m1.trace = responses m.trace ++ [none]
      ∧ connect_indices m1.trace = connect_indices m.trace
      ∧ m1.pending = [] ∧ m1.freed = true
      ∧ ∀ ev evs1, run C m1 (ev :: evs1) = none := by
  have hI := Inv_reachable C m0 m evs h0 hr
  obtain ⟨hc, hf, hpe, hph, hstep⟩ := step_of_pending C m0 m (Event.read slices st) hI hp
  obtain ⟨pre, s, post, h1, h2, h3, h4, _, h6⟩ := feed_fail_split C slices m.req.parser hfail
  refine ⟨⟨pre, s, post, h1, h2, h3, h4, h6⟩, _, hstep, ?_⟩
  have hne : (feed C m.req.parser slices).given.isEmpty = false := by simp [h6]
  have hd : dispatch C { m with pending := [] } (Event.read slices st) =
      { m with
        pending := []
        freed := true
        req := { m.req with
          parser := (feed C m.req.parser slices).parser
          have_read_byte := true }
        trace := m.trace
          ++ (feed C m.req.parser slices).given.map Effect.parser_parse
          ++ finish_calls
              { m.req with
                parser := (feed C m.req.parser slices).parser
                have_read_byte := true } false
          ++ [Effect.read_slices_unref slices.length] } := by
    simp only [dispatch]
    rw [on_read_live C { m with pending := [] } slices st hc hf]
    simp only [hfail, Bool.false_eq_true, if_false, hne, Bool.not_false, Bool.or_true]
    rw [finish_trace, emit_live] <;> first | exact hc | exact hf
  rw [hd]
  refine ⟨rfl, ?_, ?_, rfl, rfl, ?_⟩
  · simp only [responses_append, responses_finish_calls, responses_map_parse,
      responses_unref, List.append_nil, Bool.false_eq_true, if_false]
  · simp only [connect_indices_append, connect_indices_finish_calls,
      connect_indices_map_parse, connect_indices_unref, List.append_nil]
  · intro ev evs1
    exact run_none_of_no_pending C _ ev evs1 rfl

/-- C6, evaluated on `sample_reading`: the second of three buffers is
rejected, the third is not given to the parser, and the request ends in
failure although the second address is untried. -/
theorem parse_failure_terminal_witness :
    ∃ m1, step sample_collab sample_reading
        (Event.read [[72], [0], [74]] grpc_endpoint_cb_status.GRPC_ENDPOINT_CB_OK) = some m1
      ∧ m1.trace = sample_reading.trace
          ++ [Effect.parser_parse [72], Effect.parser_parse [0]]
          ++ finish_calls
              { sample_reading.req with parser := [72, 0], have_read_byte := true } false
          ++ [Effect.read_slices_unref 3]
      ∧ responses m1.trace = responses sample_reading.trace ++ [none]
      ∧ connect_indices m1.trace = connect_indices sample_reading.trace
      ∧ m1.pending = [] ∧ m1.freed = true
      ∧ ∀ ev evs1, run sample_collab m1 (ev :: evs1) = none :=
  (parse_failure_terminal sample_collab sample_start sample_reading
    [Event.resolved (some [sample_addr0, sample_addr1]), Event.connected (some sample_ep_done)]
    [[72], [0], [74]] grpc_endpoint_cb_status.GRPC_ENDPOINT_CB_OK
    (Or.inl ⟨_, _, _, _, _, rfl⟩) rfl (by decide) rfl).2

/-- C7 (secure-handshake failure is terminal).  In every state reached from
`grpc_httpcli_get` or `grpc_httpcli_post` in which the secure setup is
outstanding, the request has `use_ssl` set and: a status other than
`GRPC_SECURITY_OK` runs the terminal path with failure (`on_response` gets
`NULL`), issues no connect, leaves no registration, and nothing can be
delivered afterwards, whatever addresses remain untried; status
`GRPC_SECURITY_OK` makes the delivered endpoint the active one and starts the
write on it. -/
theorem secure_setup_failure_terminal (C : Collab σ) (m0 m : Machine σ) (evs : List Event)
    (st : grpc_security_status) (sep : Option grpc_endpoint)
    (h0 : Initial C m0) (hr : run C m0 evs = some m)
    (hp : Callback.on_secure_transport_setup_done ∈ m.pending) :
    m.req.use_ssl = true ∧
    (st ≠ grpc_security_status.GRPC_SECURITY_OK →
      ∃ m1, step C m (Event.secure_transport_setup_done st sep) = some m1
        ∧ m1.trace = m.trace ++ finish_calls m.req false
        ∧ responses m1.trace = responses m.trace ++ [none]
        ∧ connect_indices m1.trace = connect_indices m.trace
        ∧ m1.pending = [] ∧ m1.freed = true
        ∧ ∀ ev, step C m1 ev = none) ∧
    (st = grpc_security_status.GRPC_SECURITY_OK → ∀ ep, sep = some ep →
      ∃ m1 rest, step C m (Event.secure_transport_setup_done st sep) = some m1
        ∧ m1.req.ep = some ep
        ∧ m1.trace = m.trace ++
            [Effect.slice_ref m.req.request_text,
              Effect.endpoint_write ep m.req.request_text C.gpr_inf_future] ++ rest) := by
  have hI := Inv_reachable C m0 m evs h0 hr
  obtain ⟨hc, hf, hpe, hph, hstep⟩ :=
    step_of_pending C m0 m (Event.secure_transport_setup_done st sep) hI hp
  refine ⟨hph.2.2.2, ?_, ?_⟩
  · intro hne
    refine ⟨_, hstep, ?_⟩
    simp only [dispatch, on_secure_transport_setup_done, hne, ne_eq, not_false_eq_true, if_true]
    rw [finish_trace { m with pending := [] } false hc hf]
    refine ⟨rfl, ?_, ?_, rfl, rfl, ?_⟩
    · simp [responses_append, responses_finish_calls]
    · simp [connect_indices_append, connect_indices_finish_calls]
    · intro ev
      exact step_none_of_no_pending C _ ev rfl
  · intro hok ep hsep
    subst hok hsep
    have hd : dispatch C { m with pending := [] }
        (Event.secure_transport_setup_done grpc_security_status.GRPC_SECURITY_OK (some ep)) =
        start_write C { m with pending := [], req := { m.req with ep := some ep } } := by
      simp only [dispatch, on_secure_transport_setup_done, ne_eq, not_true_eq_false, if_false]
      rw [store_live { m with pending := [] } _ hc hf]
    obtain ⟨hreq, rest, htr⟩ := start_write_begins C
      { m with pending := [], req := { m.req with ep := some ep } } ep hc hf rfl
    refine ⟨_, rest, hstep, ?_, ?_⟩
    · rw [hd, hreq]
    · rw [hd, htr]

/-- C7, evaluated on `sample_securing` with a failed setup: the request ends
in failure after the one connect made, with the second address untried. -/
theorem secure_setup_failure_terminal_witness :
    sample_securing.req.use_ssl = true ∧
    ∃ m1, step sample_collab sample_securing
        (Event.secure_transport_setup_done (grpc_security_status.failed 1) none) = some m1
      ∧ m1.trace = sample_securing.trace ++ finish_calls sample_securing.req false
      ∧ responses m1.trace = responses sample_securing.trace ++ [none]
      ∧ connect_indices m1.trace = connect_indices sample_securing.trace
      ∧ m1.pending = [] ∧ m1.freed = true
      ∧ ∀ ev, step sample_collab m1 ev = none := by
  have h := secure_setup_failure_terminal sample_collab sample_secure_start sample_securing
    [Event.resolved (some [sample_addr0, sample_addr1]), Event.connected (some sample_ep_done)]
    (grpc_security_status.failed 1) none (Or.inl ⟨_, _, _, _, _, rfl⟩) rfl (by decide)
  exact ⟨h.1, h.2.1 (by decide)⟩

/-- C8 (endpoint ownership; the code diverges).  Two addresses; the first
connect yields `sample_ep_pending`, its write completes with an error, and the
request fails over: the second connect yields `sample_ep_done`, which
overwrites `req->ep`.  The request then finishes with a response.  The trace
holds every call made: `sample_ep_done` is destroyed, `sample_ep_pending`
never is. -/
theorem failover_after_write_error_leaks_endpoint :
    ∃ m, run sample_collab sample_start
        [Event.resolved (some [sample_addr0, sample_addr1]),
          Event.connected (some sample_ep_pending),
          Event.write_done grpc_endpoint_cb_status.GRPC_ENDPOINT_CB_ERROR,
          Event.connected (some sample_ep_done),
          Event.read [[72, 73]] grpc_endpoint_cb_status.GRPC_ENDPOINT_CB_EOF] = some m
      ∧ m.freed = true ∧ m.pending = []
      ∧ Effect.endpoint_destroy sample_ep_done ∈ m.trace
      ∧ Effect.endpoint_destroy sample_ep_pending ∉ m.trace
      ∧ m.trace =
        [Effect.resolve_address [104] Service.http,
          Effect.tcp_client_connect 0 sample_addr0 0 sample_deadline,
          Effect.slice_ref [71, 47],
          Effect.endpoint_write sample_ep_pending [71, 47] sample_collab.gpr_inf_future,
          Effect.tcp_client_connect 1 sample_addr1 0 sample_deadline,
          Effect.slice_ref [71, 47],
          Effect.endpoint_write sample_ep_done [71, 47] sample_collab.gpr_inf_future,
          Effect.endpoint_notify_on_read sample_ep_done sample_collab.gpr_inf_future,
          Effect.parser_parse [72, 73],
          Effect.on_response 7 8 (some [72, 73]),
          Effect.parser_destroy,
          Effect.resolved_addresses_destroy [sample_addr0, sample_addr1],
          Effect.endpoint_destroy sample_ep_done,
          Effect.slice_unref [71, 47],
          Effect.free_host none,
          Effect.free_req,
          Effect.read_slices_unref 1] := by
  refine ⟨_, rfl, rfl, rfl, ?_, ?_, rfl⟩ <;> decide

/-- C9, as stated, fails: a request started with the finite deadline
`sample_deadline` connects, writes and registers a read; the write and the
read registration carry `gpr_inf_future`, not the caller's deadline. -/
theorem write_and_read_ignore_caller_deadline :
    ∃ m, run sample_collab sample_start
        [Event.resolved (some [sample_addr0]), Event.connected (some sample_ep_done)] = some m
      ∧ m.trace =
        [Effect.resolve_address [104] Service.http,
          Effect.tcp_client_connect 0 sample_addr0 0 sample_deadline,
          Effect.slice_ref [71, 47],
          Effect.endpoint_write sample_ep_done [71, 47] sample_collab.gpr_inf_future,
          Effect.endpoint_notify_on_read sample_ep_done sample_collab.gpr_inf_future]
      ∧ sample_collab.gpr_inf_future ≠ sample_deadline
      ∧ ¬ ∀ e ∈ m.trace, Effect.deadline_is sample_deadline e := by
  refine ⟨_, rfl, rfl, by decide, ?_⟩
  intro h
  have h1 := h (Effect.endpoint_write sample_ep_done [71, 47] sample_collab.gpr_inf_future)
    (by decide)
  revert h1
  simp only [Effect.deadline_is]
  decide

/-- C9, amended.  For every request started by `grpc_httpcli_get` or
`grpc_httpcli_post` with deadline `d`, and every sequence of outcomes: each
connect is given `d`, and each write and each read registration is given
`gpr_inf_future`. -/
theorem deadlines_as_coded (C : Collab σ) (request : grpc_httpcli_request)
    (body : List Nat) (size : Nat) (d : gpr_timespec) (em cb ud : Nat)
    (m0 m : Machine σ) (evs : List Event)
    (hm0 : m0 = grpc_httpcli_get C request d em cb ud ∨
      m0 = grpc_httpcli_post C request body size d em cb ud)
    (hr : run C m0 evs = some m) :
    ∀ e ∈ m.trace, Effect.deadline_as_coded C d e := by
  have h0 : Initial C m0 := by
    rcases hm0 with h | h
    · exact Or.inl ⟨_, _, _, _, _, h⟩
    · exact Or.inr ⟨_, _, _, _, _, _, _, h⟩
  have hd0 : m0.req.deadline = d := by
    rcases hm0 with h | h <;> rw [h] <;> rfl
  have hI := Inv_reachable C m0 m evs h0 hr
  intro e he
  have hs := hI.sound e he
  have hd := hI.deadline
  cases e <;> simp_all [Effect.sound, Effect.deadline_as_coded]

/-- C9 amended, evaluated on a run of `sample_start` that connects, writes and
registers a read: the connect carries `sample_deadline`, the write and the read
registration carry `gpr_inf_future`. -/
theorem deadlines_as_coded_witness :
    Effect.deadline_as_coded sample_collab sample_deadline
        (Effect.tcp_client_connect 0 sample_addr0 0 sample_deadline :
          Effect (List Nat))
      ∧ Effect.deadline_as_coded sample_collab sample_deadline
        (Effect.endpoint_write sample_ep_done [71, 47] sample_collab.gpr_inf_future :
          Effect (List Nat))
      ∧ Effect.deadline_as_coded sample_collab sample_deadline
        (Effect.endpoint_notify_on_read sample_ep_done sample_collab.gpr_inf_future :
          Effect (List Nat)) := by
  have h := deadlines_as_coded sample_collab sample_request [] 0 sample_deadline 0 7 8
    sample_start
    ((run sample_collab sample_start
      [Event.resolved (some [sample_addr0]), Event.connected (some sample_ep_done)]).getD
      sample_start)
    [Event.resolved (some [sample_addr0]), Event.connected (some sample_ep_done)]
    (Or.inl rfl) rfl
  exact ⟨h _ (by decide), h _ (by decide), h _ (by decide)⟩

/-- C10 (finish effect order).  On a live request `finish` first calls
`on_response` with the user data and with the parser's response when
`success` is set, with `NULL` otherwise; then it releases, in this order, the
parser state, the address set if present, the endpoint if present, the
request text, the host string and the record.  No release occurs twice. -/
theorem finish_effect_order (m : Machine σ) (success : Bool) (hc : m.crashed = false)
    (hf : m.freed = false) :
    ∃ released : List (Effect σ),
      (finish m success).trace = m.trace ++
        Effect.on_response m.req.on_response m.req.user_data
          (if success then some m.req.parser else none) :: released
      ∧ released =
        [Effect.parser_destroy]
          ++ (match m.req.addresses with
              | some a => [Effect.resolved_addresses_destroy a]
              | none => [])
          ++ (match m.req.ep with
              | some ep => [Effect.endpoint_destroy ep]
              | none => [])
          ++ [Effect.slice_unref m.req.request_text, Effect.free_host m.req.host,
              Effect.free_req]
      ∧ released.Nodup
      ∧ (finish m success).freed = true
      ∧ (finish m success).pending = m.pending := by
  refine ⟨_, ?_, rfl, ?_, ?_, ?_⟩
  · rw [finish_live m success hc hf]
    simp
  · cases m.req.addresses <;> cases m.req.ep <;> simp
  · rw [finish_live m success hc hf]
  · rw [finish_live m success hc hf]

/-- C10, evaluated on `sample_machine` with the success flag set. -/
theorem finish_effect_order_witness :
    ∃ released : List (Effect (List Nat)),
      (finish sample_machine true).trace = sample_machine.trace ++
        Effect.on_response 7 8 (some [72]) :: released
      ∧ released =
        [Effect.parser_destroy, Effect.resolved_addresses_destroy [sample_addr0, sample_addr1],
          Effect.endpoint_destroy sample_ep_done, Effect.slice_unref [71, 47],
          Effect.free_host none, Effect.free_req]
      ∧ released.Nodup
      ∧ (finish sample_machine true).freed = true
      ∧ (finish sample_machine true).pending = [] :=
  finish_effect_order sample_machine true rfl rfl

/-- C12 (no failover after a byte is read).  In every state reached from
`grpc_httpcli_get` or `grpc_httpcli_post`, where an outcome is delivered only
to a callback that holds a registration: (1) whenever a callback other than
`on_read` is outstanding, that is whenever `on_resolved`, `on_connected`,
`on_secure_transport_setup_done` or `done_write` can run (and with them
`start_write` and their calls of `next_address`), `have_read_byte` is 0;
(2) a delivery to `on_read` issues a connect only when `have_read_byte` is 0
before and after it; (3) once `have_read_byte` is 1, only a read can be
outstanding, no connect outcome and no write completion can be delivered, the
flag stays 1, and no connect is issued again whatever outcomes follow. -/
theorem no_failover_after_byte (C : Collab σ) (m0 m : Machine σ) (evs : List Event)
    (h0 : Initial C m0) (hr : run C m0 evs = some m) :
    (∀ cb ∈ m.pending, cb ≠ Callback.on_read → m.req.have_read_byte = false) ∧
    (∀ slices st m1, step C m (Event.read slices st) = some m1 →
      connect_indices m1.trace ≠ connect_indices m.trace →
      m.req.have_read_byte = false ∧ m1.req.have_read_byte = false) ∧
    (m.req.have_read_byte = true →
      (∀ cb ∈ m.pending, cb = Callback.on_read)
      ∧ (∀ tcp, step C m (Event.connected tcp) = none)
      ∧ (∀ st, step C m (Event.write_done st) = none)
      ∧ ∀ evs1 m1, run C m evs1 = some m1 →
          m1.req.have_read_byte = true
            ∧ connect_indices m1.trace = connect_indices m.trace) := by
  have hI := Inv_reachable C m0 m evs h0 hr
  refine ⟨?_, ?_, ?_⟩
  · intro cb hcb hne
    rcases hI.pending with hp | ⟨cb1, hp, _, _, hph⟩
    · simp [hp] at hcb
    · simp only [hp, List.mem_singleton] at hcb
      subst hcb
      cases cb
      · exact hph.2.2.2
      · exact hph.2
      · exact hph.2.2.1
      · exact hph.2.2
      · exact absurd rfl hne
  · intro slices st m1 hs hne
    have hflag := flag_step C m0 m m1 _ hI hs
    cases hb1 : m1.req.have_read_byte
    · rw [hb1] at hflag
      cases hb : m.req.have_read_byte
      · exact ⟨rfl, rfl⟩
      · rw [hb] at hflag
        simp at hflag
    · exfalso
      apply hne
      have hmem : (Event.read slices st).callback ∈ m.pending := by
        unfold step at hs
        split at hs
        · assumption
        · simp at hs
      obtain ⟨hc, hf, _, hph, hstep⟩ := step_of_pending C m0 m _ hI hmem
      rw [hstep] at hs
      simp only [Option.some.injEq] at hs
      subst hs
      obtain ⟨ep, hep⟩ := Option.isSome_iff_exists.mp hph.2
      rw [hb1] at hflag
      exact on_read_no_connect C { m with pending := [] } slices st ep hc hf hep
        (by simpa [Event.delivers_byte] using hflag.symm)
  · intro hb
    have hpend := pending_of_flag C m0 m hI hb
    refine ⟨hpend, ?_, ?_, ?_⟩
    · intro tcp
      unfold step
      split
      · rename_i hmem
        exact absurd (hpend _ hmem) (by simp [Event.callback])
      · rfl
    · intro st
      unfold step
      split
      · rename_i hmem
        exact absurd (hpend _ hmem) (by simp [Event.callback])
      · rfl
    · intro evs1 m1 h1
      exact run_after_byte C m0 evs1 m m1 hI hb h1

/-- C12, evaluated on `sample_responding` (one byte read, second address
untried): a write completion cannot be delivered, and a later error ends the
request without another connect. -/
theorem no_failover_after_byte_witness :
    step sample_collab sample_responding
        (Event.write_done grpc_endpoint_cb_status.GRPC_ENDPOINT_CB_ERROR) = none
      ∧ step sample_collab sample_responding (Event.connected none) = none
      ∧ sample_responded.req.have_read_byte = true
      ∧ connect_indices sample_responded.trace = connect_indices sample_responding.trace := by
  have h := (no_failover_after_byte sample_collab sample_start sample_responding
    [Event.resolved (some [sample_addr0, sample_addr1]),
      Event.connected (some sample_ep_done),
      Event.read [[72]] grpc_endpoint_cb_status.GRPC_ENDPOINT_CB_OK]
    (Or.inl ⟨_, _, _, _, _, rfl⟩) rfl).2.2 rfl
  have h4 := h.2.2.2 [Event.read [] grpc_endpoint_cb_status.GRPC_ENDPOINT_CB_ERROR]
    sample_responded rfl
  exact ⟨h.2.2.1 _, h.2.1 _, h4.1, h4.2⟩

end Httpcli

namespace TimePosix

open Httpcli (gpr_timespec)

/-! ## `gpr_sleep_until` -/

theorem gpr_sleep_until_shape (T : TimeOps) (until_ : gpr_timespec)
    (clocks : List gpr_timespec) :
    ∀ (results : List Int) (calls : List gpr_timespec),
      gpr_sleep_until T until_ clocks results = some calls →
      calls = (clocks.take calls.length).map (T.gpr_time_sub until_)
        ∧ (∀ c ∈ clocks.take calls.length, 0 < T.gpr_time_cmp until_ c)
        ∧ ((∃ c, clocks[calls.length]? = some c ∧ T.gpr_time_cmp until_ c ≤ 0
              ∧ ∀ r ∈ results.take calls.length, r ≠ 0)
          ∨ (∃ k, calls.length = k + 1 ∧ results[k]? = some 0
              ∧ ∀ r ∈ results.take k, r ≠ 0)) := by
  induction clocks with
  | nil => intro results calls h; simp [gpr_sleep_until] at h
  | cons now clocks ih =>
    intro results calls h
    by_cases hcmp : T.gpr_time_cmp until_ now ≤ 0
    · simp only [gpr_sleep_until, hcmp, if_true, Option.some.injEq] at h
      subst h
      simp [hcmp]
    · have hpos : 0 < T.gpr_time_cmp until_ now := by omega
      cases results with
      | nil => simp [gpr_sleep_until, hcmp] at h
      | cons r results =>
        by_cases hr : r = 0
        · simp only [gpr_sleep_until, hcmp, if_false, hr, if_true, Option.some.injEq] at h
          subst h
          subst hr
          simp [hpos]
        · simp only [gpr_sleep_until, hcmp, if_false, hr, Option.map_eq_some'] at h
          obtain ⟨calls1, h1, rfl⟩ := h
          obtain ⟨e1, e2, e3⟩ := ih results calls1 h1
          refine ⟨?_, ?_, ?_⟩
          · simp only [List.length_cons, List.take_succ_cons, List.map_cons]
            rw [← e1]
          · intro c hc
            simp only [List.length_cons, List.take_succ_cons, List.mem_cons] at hc
            rcases hc with hc | hc
            · subst hc; exact hpos
            · exact e2 c hc
          · rcases e3 with ⟨c, hc1, hc2, hc3⟩ | ⟨k, hk1, hk2, hk3⟩
            · left
              refine ⟨c, by simpa using hc1, hc2, ?_⟩
              intro x hx
              simp only [List.length_cons, List.take_succ_cons, List.mem_cons] at hx
              rcases hx with hx | hx
              · subst hx; exact hr
              · exact hc3 x hx
            · right
              refine ⟨k + 1, by simp [hk1], by simpa using hk2, ?_⟩
              intro x hx
              simp only [List.take_succ_cons, List.mem_cons] at hx
              rcases hx with hx | hx
              · subst hx; exact hr
              · exact hk3 x hx

theorem gpr_sleep_until_returns_on_completion (T : TimeOps) (until_ : gpr_timespec)
    (clocks : List gpr_timespec) :
    ∀ (results : List Int) (k : Nat), k < clocks.length → results[k]? = some 0 →
      (gpr_sleep_until T until_ clocks results).isSome = true := by
  induction clocks with
  | nil => intro results k hk; simp at hk
  | cons now clocks ih =>
    intro results k hk hres
    by_cases hcmp : T.gpr_time_cmp until_ now ≤ 0
    · simp [gpr_sleep_until, hcmp]
    · cases results with
      | nil => simp at hres
      | cons r results =>
        by_cases hr : r = 0
        · simp [gpr_sleep_until, hcmp, hr]
        · cases k with
          | zero => simp at hres; exact absurd hres hr
          | succ k =>
            simp only [gpr_sleep_until, hcmp, if_false, hr, Option.isSome_map']
            exact ih results k (by simpa using hk) (by simpa using hres)

theorem gpr_sleep_until_returns_on_deadline (T : TimeOps) (until_ : gpr_timespec)
    (clocks : List gpr_timespec) :
    ∀ (results : List Int) (k : Nat) (c : gpr_timespec), clocks[k]? = some c →
      T.gpr_time_cmp until_ c ≤ 0 → k ≤ results.length →
      (gpr_sleep_until T until_ clocks results).isSome = true := by
  induction clocks with
  | nil => intro results k c hc; simp at hc
  | cons now clocks ih =>
    intro results k c hc hle hk
    by_cases hcmp : T.gpr_time_cmp until_ now ≤ 0
    · simp [gpr_sleep_until, hcmp]
    · cases k with
      | zero =>
        simp only [List.getElem?_cons_zero, Option.some.injEq] at hc
        subst hc
        exact absurd hle hcmp
      | succ k =>
        cases results with
        | nil => simp at hk
        | cons r results =>
          by_cases hr : r = 0
          · simp [gpr_sleep_until, hcmp, hr]
          · simp only [gpr_sleep_until, hcmp, if_false, hr, Option.isSome_map']
            exact ih results k c (by simpa using hc) hle (by simpa using hk)

/-! ## Claims on the time support -/

/-- C13 (`gpr_sleep_until` retries until the deadline is reached).  For every
deadline and every sequence of clock readings and `nanosleep` results:
(1) with the deadline not after the reading, it returns without a sleep;
(2) otherwise it sleeps for exactly the difference, and returns when
`nanosleep` reports zero; (3) when `nanosleep` reports non-zero it reads the
clock again and goes on the same way; (4) when it returns, every sleep was for
the difference to the reading made just before it, every reading before a
sleep was before the deadline, every sleep but the last was cut short, and
either the next reading was not before the deadline or the last sleep reported
zero; (5) it does return once a sleep reports zero or a reading is not before
the deadline. -/
theorem gpr_sleep_until_retries (T : TimeOps) (until_ : gpr_timespec) :
    (∀ now clocks results, T.gpr_time_cmp until_ now ≤ 0 →
      gpr_sleep_until T until_ (now :: clocks) results = some []) ∧
    (∀ now clocks results, 0 < T.gpr_time_cmp until_ now →
      gpr_sleep_until T until_ (now :: clocks) (0 :: results)
        = some [T.gpr_time_sub until_ now]) ∧
    (∀ now clocks r results, 0 < T.gpr_time_cmp until_ now → r ≠ 0 →
      gpr_sleep_until T until_ (now :: clocks) (r :: results)
        = (gpr_sleep_until T until_ clocks results).map
            (fun calls => T.gpr_time_sub until_ now :: calls)) ∧
    (∀ clocks results calls, gpr_sleep_until T until_ clocks results = some calls →
      calls = (clocks.take calls.length).map (T.gpr_time_sub until_)
        ∧ (∀ c ∈ clocks.take calls.length, 0 < T.gpr_time_cmp until_ c)
        ∧ ((∃ c, clocks[calls.length]? = some c ∧ T.gpr_time_cmp until_ c ≤ 0
              ∧ ∀ r ∈ results.take calls.length, r ≠ 0)
          ∨ (∃ k, calls.length = k + 1 ∧ results[k]? = some 0
              ∧ ∀ r ∈ results.take k, r ≠ 0))) ∧
    (∀ clocks results k, k < clocks.length → results[k]? = some 0 →
      (gpr_sleep_until T until_ clocks results).isSome = true) ∧
    (∀ clocks results k c, clocks[k]? = some c → T.gpr_time_cmp until_ c ≤ 0 →
      k ≤ results.length → (gpr_sleep_until T until_ clocks results).isSome = true) := by
  refine ⟨?_, ?_, ?_, ?_, ?_, ?_⟩
  · intro now clocks results h
    simp [gpr_sleep_until, h]
  · intro now clocks results h
    have hn : ¬ T.gpr_time_cmp until_ now ≤ 0 := by omega
    simp [gpr_sleep_until, hn]
  · intro now clocks r results h hr
    have hn : ¬ T.gpr_time_cmp until_ now ≤ 0 := by omega
    simp [gpr_sleep_until, hn, hr]
  · exact fun clocks results calls h => gpr_sleep_until_shape T until_ clocks results calls h
  · exact fun clocks results k hk hr =>
      gpr_sleep_until_returns_on_completion T until_ clocks results k hk hr
  · exact fun clocks results k c hc hle hk =>
      gpr_sleep_until_returns_on_deadline T until_ clocks results k c hc hle hk

/-- C13, evaluated for the deadline 10 s: two sleeps are cut short (readings
8 s and 9 s + 5 ns), the third reading is past the deadline. -/
theorem gpr_sleep_until_retries_witness :
    gpr_sleep_until sample_time_ops { tv_sec := 10, tv_nsec := 0 }
        [{ tv_sec := 8, tv_nsec := 0 }, { tv_sec := 9, tv_nsec := 5 },
          { tv_sec := 10, tv_nsec := 1 }]
        [-1, -1]
      = (gpr_sleep_until sample_time_ops { tv_sec := 10, tv_nsec := 0 }
          [{ tv_sec := 9, tv_nsec := 5 }, { tv_sec := 10, tv_nsec := 1 }] [-1]).map
          (fun calls => sample_time_ops.gpr_time_sub { tv_sec := 10, tv_nsec := 0 }
            { tv_sec := 8, tv_nsec := 0 } :: calls)
      ∧ gpr_sleep_until sample_time_ops { tv_sec := 10, tv_nsec := 0 }
          [{ tv_sec := 10, tv_nsec := 1 }] [] = some []
      ∧ gpr_sleep_until sample_time_ops { tv_sec := 10, tv_nsec := 0 }
          [{ tv_sec := 8, tv_nsec := 0 }, { tv_sec := 9, tv_nsec := 5 },
            { tv_sec := 10, tv_nsec := 1 }]
          [-1, -1]
        = some [{ tv_sec := 2, tv_nsec := 0 }, { tv_sec := 0, tv_nsec := 999999995 }] := by
  have h := gpr_sleep_until_retries sample_time_ops { tv_sec := 10, tv_nsec := 0 }
  exact ⟨h.2.2.1 _ _ _ _ (by decide) (by decide), h.1 _ _ _ (by decide), by decide⟩

/-- For a microsecond count in `[0, 10^6)` the nanosecond field `gpr_now`
computes is that count divided by 1000, a value in `[0, 1000)`. -/
theorem gpr_now_nsec_range (tv : timeval) (h0 : 0 ≤ tv.tv_usec) (h1 : tv.tv_usec < 1000000) :
    (gpr_now tv).tv_sec = tv.tv_sec
      ∧ 0 ≤ (gpr_now tv).tv_nsec ∧ (gpr_now tv).tv_nsec < 1000
      ∧ 1000 * (gpr_now tv).tv_nsec ≤ tv.tv_usec
      ∧ tv.tv_usec < 1000 * (gpr_now tv).tv_nsec + 1000 := by
  have hd : Int.tdiv tv.tv_usec 1000 = tv.tv_usec / 1000 :=
    Int.tdiv_eq_ediv h0 (by decide)
  simp only [gpr_now, hd]
  refine ⟨trivial, ?_, ?_, ?_, ?_⟩ <;> omega

/-- C14 (`gpr_now` without POSIX timers; the code diverges).  For the timeval
1 s + 500000 us the code returns 1 s + 500 ns: the microseconds are divided by
1000, not multiplied, so the result is not the instant of the timeval, and
timevals 999 us apart give the same timespec. -/
theorem gpr_now_divides_microseconds :
    gpr_now { tv_sec := 1, tv_usec := 500000 } = { tv_sec := 1, tv_nsec := 500 }
      ∧ (gpr_now { tv_sec := 1, tv_usec := 500000 }).tv_nsec ≠ 500000 * 1000
      ∧ gpr_now { tv_sec := 0, tv_usec := 0 } = gpr_now { tv_sec := 0, tv_usec := 999 } := by
  decide

end TimePosix
